import Mathlib

/-!
# Verification of the simplefeatures planar-geometry library core

This file embeds (shallowly) the parts of the `simplefeatures` Go geometry
library that the verified claims are about: the segment-intersection kernel,
the point-in-ring test, line-string simplicity, the polygon and multi-polygon
constructors, the `Intersects` dispatcher, the GeoJSON coordinate validation,
and the R-tree bulk-load partitioning.

Coordinates are modelled as rationals (`ℚ`): the library's geometric
predicates use exact comparisons of coordinates, and the older module of the
source even uses exact `Scalar` arithmetic.  Where a claim is specifically
about IEEE NaN/infinity handling we use a dedicated coordinate model `Fl`
with explicit `nan`/`inf` values and Go's comparison semantics.

Definitions translated from source files are named after the Go functions.
Functions of the repository whose source files are not available (only their
callers are) are modelled from the specification; each such definition's doc
comment says so.
-/

namespace SimpleFeatures

/-- A planar point with exact coordinates (models the library's `XY` of two
float64 values, in the exact-arithmetic reading). -/
structure XY where
  x : ℚ
  y : ℚ
deriving DecidableEq, Repr

namespace XY

def sub (a b : XY) : XY := ⟨a.x - b.x, a.y - b.y⟩

def add (a b : XY) : XY := ⟨a.x + b.x, a.y + b.y⟩

def smul (t : ℚ) (v : XY) : XY := ⟨t * v.x, t * v.y⟩

/-- 2D cross product (models `XY.Cross`). -/
def cross (u v : XY) : ℚ := u.x * v.y - u.y * v.x

/-- Dot product (models `XY.Dot`). -/
def dot (u v : XY) : ℚ := u.x * v.x + u.y * v.y

/-- Midpoint of two points (models `XY.Midpoint`). -/
def midpoint (a b : XY) : XY := ⟨(a.x + b.x) / 2, (a.y + b.y) / 2⟩

end XY

/-- A non-degenerate line segment between two control points (models the
`line` type of the geom package). -/
structure Line where
  a : XY
  b : XY
deriving DecidableEq, Repr

/-- Axis-aligned bounding box (models `rtree.Box` / the envelope of a
segment). -/
structure Box where
  minX : ℚ
  minY : ℚ
  maxX : ℚ
  maxY : ℚ
deriving DecidableEq, Repr

/-- Bounding box of a segment (models `line.box` / `line.envelope`). -/
def Line.box (l : Line) : Box :=
  ⟨min l.a.x l.b.x, min l.a.y l.b.y, max l.a.x l.b.x, max l.a.y l.b.y⟩

/-- Whether two boxes intersect (models the R-tree range-search overlap
test: per the spec, `search(queryBox)` visits exactly the records whose
boxes intersect the query box). -/
def boxesIntersect (b1 b2 : Box) : Bool :=
  decide (b1.minX ≤ b2.maxX) && decide (b2.minX ≤ b1.maxX) &&
  decide (b1.minY ≤ b2.maxY) && decide (b2.minY ≤ b1.maxY)

/-- Membership of a point in a box. -/
def Box.memXY (b : Box) (p : XY) : Prop :=
  b.minX ≤ p.x ∧ p.x ≤ b.maxX ∧ b.minY ≤ p.y ∧ p.y ≤ b.maxY

/-- Modelled from the spec: the segment-intersection kernel
(`line.intersectLine`, source file not available).  Given segments `AB` and
`CD`, returns `none` when they do not intersect, and otherwise the two
extreme points of the intersection (equal for a single-point intersection).
Follows spec §4.1: cross-product test for the non-parallel case, and
projection/clipping for the collinear case. -/
def intersectLine (l1 l2 : Line) : Option (XY × XY) :=
  let A := l1.a
  let B := l1.b
  let C := l2.a
  let D := l2.b
  let r := B.sub A
  let s := D.sub C
  let denom := XY.cross r s
  if denom ≠ 0 then
    let t := XY.cross (C.sub A) s / denom
    let u := XY.cross (C.sub A) r / denom
    if 0 ≤ t ∧ t ≤ 1 ∧ 0 ≤ u ∧ u ≤ 1 then
      let p := A.add (XY.smul t r)
      some (p, p)
    else
      none
  else if XY.cross (C.sub A) r ≠ 0 then
    none
  else
    let rr := XY.dot r r
    let tC := XY.dot (C.sub A) r / rr
    let tD := XY.dot (D.sub A) r / rr
    let lo := max 0 (min tC tD)
    let hi := min 1 (max tC tD)
    if lo > hi then none
    else some (A.add (XY.smul lo r), A.add (XY.smul hi r))

/-- `P` lies on the segment `l` (specification-side predicate used to relate
`intersectLine` to the geometry). -/
def OnSeg (P : XY) (l : Line) : Prop :=
  ∃ t : ℚ, 0 ≤ t ∧ t ≤ 1 ∧ P = l.a.add (XY.smul t (l.b.sub l.a))

/-- Side of a ring a point can be on (models `side` of the geom package). -/
inductive RingSide where
  | interior
  | boundary
  | exterior
deriving DecidableEq, Repr

/-- Exact test for a point lying on a segment (models `line.intersectsXY`,
source file not available; modelled from the spec: "Boundary detection is
exact when `p` lies on any segment"). -/
def lineIntersectsXY (l : Line) (p : XY) : Bool :=
  decide (XY.cross (l.b.sub l.a) (p.sub l.a) = 0) &&
  decide (min l.a.x l.b.x ≤ p.x) && decide (p.x ≤ max l.a.x l.b.x) &&
  decide (min l.a.y l.b.y ≤ p.y) && decide (p.y ≤ max l.a.y l.b.y)

/-- A ring (or any line string) is a list of control points. -/
abbrev Ring := List XY

/-- The segment from control point `i` to control point `i+1`, suppressed
when degenerate (models `getLine` of the sequence module, source file not
available; modelled from the spec: "`getLine(i)` return segment `(i, i+1)`
or 'absent' when both endpoints share XY"). -/
def getLine (seq : List XY) (i : ℕ) : Option Line :=
  match seq[i]?, seq[i+1]? with
  | some a, some b => if a = b then none else some ⟨a, b⟩
  | _, _ => none

/-- All non-degenerate segments of a sequence in order (models
`lineString.asLines`). -/
def asLines (seq : List XY) : List Line :=
  (List.range seq.length).filterMap (getLine seq)

/-- One ray-cast crossing test of the Jordan point-in-ring algorithm:
whether the horizontal ray from `p` to the right crosses the segment, with
the half-open edge rule on the vertical extent (modelled from the spec,
`pointRingSide` source file not available). -/
def rayCrossesSegment (p : XY) (l : Line) : Bool :=
  (decide (l.a.y > p.y) != decide (l.b.y > p.y)) &&
  decide (p.x < l.a.x + (p.y - l.a.y) * (l.b.x - l.a.x) / (l.b.y - l.a.y))

/-- Modelled from the spec: the Jordan point-in-ring test (`pointRingSide`,
source file not available).  Returns `boundary` when the point lies exactly
on a segment of the ring, and otherwise classifies by the parity of a
horizontal ray cast. -/
def pointRingSide (p : XY) (ring : Ring) : RingSide :=
  let lines := asLines ring
  if lines.any (fun l => lineIntersectsXY l p) then
    RingSide.boundary
  else if (lines.filter (rayCrossesSegment p)).length % 2 = 1 then
    RingSide.interior
  else
    RingSide.exterior

section IntersectLineLemmas

/-- The point at parameter `t` on the parametric line through `A` with
direction `r`. -/
def linePoint (A r : XY) (t : ℚ) : XY := A.add (XY.smul t r)

theorem onSeg_iff {P : XY} {l : Line} :
    OnSeg P l ↔ ∃ t : ℚ, 0 ≤ t ∧ t ≤ 1 ∧ P = linePoint l.a (l.b.sub l.a) t :=
  Iff.rfl

theorem dot_self_ne_zero {r : XY} (h : r ≠ ⟨0, 0⟩) : XY.dot r r ≠ 0 := by
  obtain ⟨rx, ry⟩ := r
  simp only [XY.dot]
  intro hc
  apply h
  have hx : rx = 0 := by nlinarith [sq_nonneg rx, sq_nonneg ry]
  have hy : ry = 0 := by nlinarith [sq_nonneg rx, sq_nonneg ry]
  simp [hx, hy]

/-- Cramer identity: the parametric intersection point computed from segment
`AB` coincides with the one computed from `CD` when the segments are not
parallel. -/
theorem cramer_point {A C r s : XY} (hd : XY.cross r s ≠ 0) :
    linePoint A r (XY.cross (C.sub A) s / XY.cross r s) =
    linePoint C s (XY.cross (C.sub A) r / XY.cross r s) := by
  obtain ⟨Ax, Ay⟩ := A
  obtain ⟨Cx, Cy⟩ := C
  obtain ⟨rx, ry⟩ := r
  obtain ⟨sx, sy⟩ := s
  simp only [linePoint, XY.add, XY.smul, XY.sub, XY.cross, XY.mk.injEq] at *
  constructor <;> (field_simp; ring)

/-- Cramer uniqueness: a common point of two non-parallel parametric lines
has the parameters computed by the kernel. -/
theorem cramer_unique {A C r s : XY} {t u : ℚ} (hd : XY.cross r s ≠ 0)
    (h : linePoint A r t = linePoint C s u) :
    t = XY.cross (C.sub A) s / XY.cross r s ∧
    u = XY.cross (C.sub A) r / XY.cross r s := by
  obtain ⟨Ax, Ay⟩ := A
  obtain ⟨Cx, Cy⟩ := C
  obtain ⟨rx, ry⟩ := r
  obtain ⟨sx, sy⟩ := s
  simp only [linePoint, XY.add, XY.smul, XY.sub, XY.cross, XY.mk.injEq] at *
  obtain ⟨h1, h2⟩ := h
  constructor
  · field_simp
    linear_combination sy * h1 - sx * h2
  · field_simp
    linear_combination ry * h1 - rx * h2

/-- Collinear decomposition: a vector with zero cross product against a
non-zero `r` is the projection-scaled multiple of `r`. -/
theorem collinear_decomp {w r : XY} (hr : r ≠ ⟨0, 0⟩)
    (h : XY.cross w r = 0) : w = XY.smul (XY.dot w r / XY.dot r r) r := by
  have hrr := dot_self_ne_zero hr
  obtain ⟨wx, wy⟩ := w
  obtain ⟨rx, ry⟩ := r
  simp only [XY.smul, XY.dot, XY.cross, XY.mk.injEq] at *
  constructor
  · field_simp
    linear_combination ry * h
  · field_simp
    linear_combination (-rx) * h

/-- Parameter uniqueness on a non-degenerate parametric line. -/
theorem linePoint_inj {A r : XY} {t t' : ℚ} (hr : r ≠ ⟨0, 0⟩)
    (h : linePoint A r t = linePoint A r t') : t = t' := by
  obtain ⟨Ax, Ay⟩ := A
  obtain ⟨rx, ry⟩ := r
  simp only [linePoint, XY.add, XY.smul, XY.mk.injEq] at h
  obtain ⟨h1, h2⟩ := h
  rcases (by
    by_contra hc
    push_neg at hc
    exact hr (by simp [hc.1, hc.2]) : rx ≠ 0 ∨ ry ≠ 0) with hx | hy
  · have : t * rx = t' * rx := by linarith
    exact mul_right_cancel₀ hx this
  · have : t * ry = t' * ry := by linarith
    exact mul_right_cancel₀ hy this

theorem sub_eq_zero_iff {a b : XY} : b.sub a = ⟨0, 0⟩ ↔ a = b := by
  obtain ⟨ax, ay⟩ := a
  obtain ⟨bx, by'⟩ := b
  simp only [XY.sub, XY.mk.injEq]
  constructor <;> (intro h; obtain ⟨h1, h2⟩ := h; constructor <;> linarith)

theorem add_sub_cancel_xy (A C : XY) : A.add (C.sub A) = C := by
  obtain ⟨Ax, Ay⟩ := A
  obtain ⟨Cx, Cy⟩ := C
  simp only [XY.add, XY.sub, XY.mk.injEq]
  constructor <;> ring

theorem cross_add_left (u v w : XY) :
    XY.cross (u.add v) w = XY.cross u w + XY.cross v w := by
  obtain ⟨ux, uy⟩ := u
  obtain ⟨vx, vy⟩ := v
  obtain ⟨wx, wy⟩ := w
  simp only [XY.cross, XY.add]
  ring

/-- A point with zero cross product against a non-degenerate direction is a
`linePoint` at the projection parameter. -/
theorem linePoint_of_cross_zero {A C r : XY} (hr : r ≠ ⟨0, 0⟩)
    (h : XY.cross (C.sub A) r = 0) :
    C = linePoint A r (XY.dot (C.sub A) r / XY.dot r r) := by
  have h2 := collinear_decomp hr h
  rw [linePoint, ← h2, add_sub_cancel_xy]

theorem linePoint_comp (A r : XY) (tC tD u : ℚ) :
    (linePoint A r tC).add (XY.smul u (XY.smul (tD - tC) r)) =
    linePoint A r (tC + u * (tD - tC)) := by
  obtain ⟨Ax, Ay⟩ := A
  obtain ⟨rx, ry⟩ := r
  simp only [linePoint, XY.add, XY.smul, XY.mk.injEq]
  constructor <;> ring

theorem linePoint_sub (A r : XY) (tC tD : ℚ) :
    (linePoint A r tD).sub (linePoint A r tC) = XY.smul (tD - tC) r := by
  obtain ⟨Ax, Ay⟩ := A
  obtain ⟨rx, ry⟩ := r
  simp only [linePoint, XY.add, XY.smul, XY.sub, XY.mk.injEq]
  constructor <;> ring

/-- A parameter between the endpoint parameters of a collinear segment gives
a point on that segment. -/
theorem onSeg_of_params {A r C D : XY} {tC tD τ : ℚ}
    (hC : C = linePoint A r tC) (hD : D = linePoint A r tD) (hne : tC ≠ tD)
    (h1 : min tC tD ≤ τ) (h2 : τ ≤ max tC tD) :
    OnSeg (linePoint A r τ) ⟨C, D⟩ := by
  have hden : tD - tC ≠ 0 := sub_ne_zero.mpr (Ne.symm hne)
  refine ⟨(τ - tC) / (tD - tC), ?_, ?_, ?_⟩
  · rcases lt_or_gt_of_ne hne with hlt | hgt
    · rw [min_eq_left hlt.le] at h1
      exact div_nonneg (by linarith) (by linarith)
    · rw [max_eq_left hgt.le] at h2
      rw [div_nonneg_iff]
      exact Or.inr ⟨by linarith, by linarith⟩
  · rcases lt_or_gt_of_ne hne with hlt | hgt
    · rw [max_eq_right hlt.le] at h2
      rw [div_le_one (by linarith)]
      linarith
    · rw [min_eq_right hgt.le] at h1
      rw [div_le_one_iff]
      exact Or.inr (Or.inr ⟨by linarith, by linarith⟩)
  · show linePoint A r τ = C.add (XY.smul ((τ - tC) / (tD - tC)) (D.sub C))
    rw [hC, hD, linePoint_sub, linePoint_comp]
    congr 1
    rw [div_mul_cancel₀ _ hden]
    ring

/-- Conversely, a point on a collinear segment has its parameter between the
endpoint parameters. -/
theorem params_of_onSeg {A r C D P : XY} {tC tD τ : ℚ} (hr : r ≠ ⟨0, 0⟩)
    (hC : C = linePoint A r tC) (hD : D = linePoint A r tD)
    (hseg : OnSeg P ⟨C, D⟩) (hP : P = linePoint A r τ) :
    min tC tD ≤ τ ∧ τ ≤ max tC tD := by
  obtain ⟨u, hu0, hu1, hPu⟩ := hseg
  have hPu' : P = linePoint A r (tC + u * (tD - tC)) := by
    rw [hPu]
    show C.add (XY.smul u (D.sub C)) = _
    rw [hC, hD, linePoint_sub, linePoint_comp]
  have hτ : τ = tC + u * (tD - tC) := linePoint_inj hr (hP.symm.trans hPu')
  constructor
  · rcases le_total tC tD with hle | hle
    · rw [min_eq_left hle]
      nlinarith
    · rw [min_eq_right hle]
      nlinarith
  · rcases le_total tC tD with hle | hle
    · rw [max_eq_right hle]
      nlinarith
    · rw [max_eq_left hle]
      nlinarith

theorem cross_antisymm (u v : XY) : XY.cross u v = -XY.cross v u := by
  obtain ⟨ux, uy⟩ := u
  obtain ⟨vx, vy⟩ := v
  simp only [XY.cross]
  ring

/-- A point shared by two parallel parametric lines forces the connecting
vector to be parallel as well. -/
theorem cross_shared {P A C r s : XY} {t u : ℚ}
    (hA : P = linePoint A r t) (hC : P = linePoint C s u)
    (hpar : XY.cross r s = 0) : XY.cross (C.sub A) r = 0 := by
  obtain ⟨Px, Py⟩ := P
  obtain ⟨Ax, Ay⟩ := A
  obtain ⟨Cx, Cy⟩ := C
  obtain ⟨rx, ry⟩ := r
  obtain ⟨sx, sy⟩ := s
  simp only [linePoint, XY.add, XY.smul, XY.sub, XY.cross, XY.mk.injEq] at *
  obtain ⟨ha1, ha2⟩ := hA
  obtain ⟨hc1, hc2⟩ := hC
  linear_combination ry * ha1 - rx * ha2 - ry * hc1 + rx * hc2 + u * hpar

theorem line_dir_ne_zero {l : Line} (h : l.a ≠ l.b) : l.b.sub l.a ≠ ⟨0, 0⟩ :=
  fun hc => h (sub_eq_zero_iff.mp hc)

/-- Soundness of the intersection kernel: any reported intersection point
lies on both segments. -/
theorem intersectLine_some_onSeg {l1 l2 : Line} {p q : XY}
    (h1 : l1.a ≠ l1.b) (h2 : l2.a ≠ l2.b)
    (hp : intersectLine l1 l2 = some (p, q)) :
    (OnSeg p l1 ∧ OnSeg p l2) ∧ OnSeg q l1 ∧ OnSeg q l2 := by
  have hr := line_dir_ne_zero h1
  have hs := line_dir_ne_zero h2
  simp only [intersectLine] at hp
  split_ifs at hp with hd hcond hpar hlohi
  · obtain ⟨ht0, ht1, hu0, hu1⟩ := hcond
    simp only [Option.some.injEq, Prod.mk.injEq] at hp
    obtain ⟨hpeq, hqeq⟩ := hp
    have hpq : p = q := hpeq.symm.trans hqeq
    have hcram := cramer_point (A := l1.a) (C := l2.a) hd
    have hps1 : OnSeg p l1 := ⟨_, ht0, ht1, hpeq.symm⟩
    have hps2 : OnSeg p l2 := ⟨_, hu0, hu1, by rw [← hpeq]; exact hcram⟩
    exact ⟨⟨hps1, hps2⟩, hpq ▸ hps1, hpq ▸ hps2⟩
  · -- collinear overlap case
    push_neg at hd hlohi
    have hpar' : XY.cross ((l2.a).sub l1.a) (l1.b.sub l1.a) = 0 := by
      by_contra hc
      exact hpar hc
    have hDcross : XY.cross ((l2.b).sub l1.a) (l1.b.sub l1.a) = 0 := by
      have hsplit : (l2.b).sub l1.a = ((l2.b).sub l2.a).add ((l2.a).sub l1.a) := by
        obtain ⟨ax, ay⟩ := l1.a
        obtain ⟨cx, cy⟩ := l2.a
        obtain ⟨dx, dy⟩ := l2.b
        simp only [XY.sub, XY.add, XY.mk.injEq]
        constructor <;> ring
      have hsr : XY.cross ((l2.b).sub l2.a) (l1.b.sub l1.a) = 0 := by
        rw [cross_antisymm]
        simpa using hd
      rw [hsplit, cross_add_left, hpar', hsr]
      norm_num
    set rr := XY.dot (l1.b.sub l1.a) (l1.b.sub l1.a) with hrr
    set tC := XY.dot ((l2.a).sub l1.a) (l1.b.sub l1.a) / rr with htC
    set tD := XY.dot ((l2.b).sub l1.a) (l1.b.sub l1.a) / rr with htD
    have hC : l2.a = linePoint l1.a (l1.b.sub l1.a) tC :=
      linePoint_of_cross_zero hr hpar'
    have hD : l2.b = linePoint l1.a (l1.b.sub l1.a) tD :=
      linePoint_of_cross_zero hr hDcross
    have htCD : tC ≠ tD := by
      intro heq
      exact h2 (by rw [hC, hD, heq])
    set lo := max 0 (min tC tD) with hlo
    set hi := min 1 (max tC tD) with hhi
    simp only [Option.some.injEq, Prod.mk.injEq] at hp
    obtain ⟨hpeq, hqeq⟩ := hp
    have hlo0 : (0 : ℚ) ≤ lo := le_max_left _ _
    have hhi1 : hi ≤ 1 := min_le_left _ _
    have hlomin : min tC tD ≤ lo := le_max_right _ _
    have hhimax : hi ≤ max tC tD := min_le_right _ _
    have hOp1 : OnSeg p l1 := ⟨lo, hlo0, le_trans hlohi hhi1, hpeq.symm⟩
    have hOq1 : OnSeg q l1 := ⟨hi, le_trans hlo0 hlohi, hhi1, hqeq.symm⟩
    have hOp2 : OnSeg p l2 := by
      rw [← hpeq]
      exact onSeg_of_params hC hD htCD hlomin (le_trans hlohi hhimax)
    have hOq2 : OnSeg q l2 := by
      rw [← hqeq]
      exact onSeg_of_params hC hD htCD (le_trans hlomin hlohi) hhimax
    exact ⟨⟨hOp1, hOp2⟩, hOq1, hOq2⟩

/-- Completeness of the intersection kernel: two non-degenerate segments
intersect (report `some`) exactly when they share a point. -/
theorem intersectLine_isSome_iff {l1 l2 : Line}
    (h1 : l1.a ≠ l1.b) (h2 : l2.a ≠ l2.b) :
    (intersectLine l1 l2).isSome = true ↔ ∃ P, OnSeg P l1 ∧ OnSeg P l2 := by
  have hr := line_dir_ne_zero h1
  have hs := line_dir_ne_zero h2
  constructor
  · intro h
    obtain ⟨⟨p, q⟩, hp⟩ := Option.isSome_iff_exists.mp h
    obtain ⟨⟨hp1, hp2⟩, _⟩ := intersectLine_some_onSeg h1 h2 hp
    exact ⟨p, hp1, hp2⟩
  · rintro ⟨P, hP1, hP2⟩
    rw [Option.isSome_iff_exists]
    by_contra hnone
    push_neg at hnone
    have hn : intersectLine l1 l2 = none := by
      cases hI : intersectLine l1 l2 with
      | none => rfl
      | some v => exact absurd hI (hnone v)
    clear hnone
    obtain ⟨t', ht'0, ht'1, hPt⟩ := hP1
    obtain ⟨u', hu'0, hu'1, hPu⟩ := hP2
    simp only [intersectLine] at hn
    split_ifs at hn with hd hcond hpar hlohi
    · -- non-parallel but kernel condition failed: contradict Cramer
      obtain ⟨hteq, hueq⟩ := cramer_unique (A := l1.a) (C := l2.a) hd
        (show linePoint l1.a (l1.b.sub l1.a) t' = linePoint l2.a (l2.b.sub l2.a) u' from
          hPt.symm.trans hPu)
      exact hcond ⟨hteq ▸ ht'0, hteq ▸ ht'1, hueq ▸ hu'0, hueq ▸ hu'1⟩
    · -- parallel non-collinear: a shared point is impossible
      push_neg at hd
      exact hpar (cross_shared hPt hPu hd)
    · -- collinear with empty clipped overlap: a shared point is impossible
      push_neg at hd
      have hpar' : XY.cross ((l2.a).sub l1.a) (l1.b.sub l1.a) = 0 := by
        by_contra hc
        exact hpar hc
      have hDcross : XY.cross ((l2.b).sub l1.a) (l1.b.sub l1.a) = 0 := by
        have hsplit : (l2.b).sub l1.a = ((l2.b).sub l2.a).add ((l2.a).sub l1.a) := by
          obtain ⟨ax, ay⟩ := l1.a
          obtain ⟨cx, cy⟩ := l2.a
          obtain ⟨dx, dy⟩ := l2.b
          simp only [XY.sub, XY.add, XY.mk.injEq]
          constructor <;> ring
        have hsr : XY.cross ((l2.b).sub l2.a) (l1.b.sub l1.a) = 0 := by
          rw [cross_antisymm]
          simpa using hd
        rw [hsplit, cross_add_left, hpar', hsr]
        norm_num
      have hC : l2.a = linePoint l1.a (l1.b.sub l1.a)
          (XY.dot ((l2.a).sub l1.a) (l1.b.sub l1.a) /
            XY.dot (l1.b.sub l1.a) (l1.b.sub l1.a)) :=
        linePoint_of_cross_zero hr hpar'
      have hD : l2.b = linePoint l1.a (l1.b.sub l1.a)
          (XY.dot ((l2.b).sub l1.a) (l1.b.sub l1.a) /
            XY.dot (l1.b.sub l1.a) (l1.b.sub l1.a)) :=
        linePoint_of_cross_zero hr hDcross
      obtain ⟨hmin, hmax⟩ := params_of_onSeg hr hC hD ⟨u', hu'0, hu'1, hPu⟩ hPt
      exact absurd (le_trans (max_le ht'0 hmin) (le_min ht'1 hmax))
        (not_le.mpr hlohi)

/-- Emptiness of segment intersection is symmetric for non-degenerate
segments. -/
theorem intersectLine_none_comm {l1 l2 : Line}
    (h1 : l1.a ≠ l1.b) (h2 : l2.a ≠ l2.b) :
    (intersectLine l1 l2 = none) ↔ (intersectLine l2 l1 = none) := by
  have e1 := intersectLine_isSome_iff h1 h2
  have e2 := intersectLine_isSome_iff h2 h1
  rw [← Option.not_isSome_iff_eq_none, ← Option.not_isSome_iff_eq_none,
    Bool.not_eq_true, Bool.not_eq_true,
    ← Bool.not_eq_true (intersectLine l1 l2).isSome,
    ← Bool.not_eq_true (intersectLine l2 l1).isSome, e1, e2]
  constructor
  · intro h ⟨P, hP1, hP2⟩
    exact h ⟨P, hP2, hP1⟩
  · intro h ⟨P, hP1, hP2⟩
    exact h ⟨P, hP2, hP1⟩

/-- A point on a segment lies in the segment's bounding box. -/
theorem onSeg_mem_box {P : XY} {l : Line} (h : OnSeg P l) : l.box.memXY P := by
  obtain ⟨⟨ax, ay⟩, bx, by'⟩ := l
  obtain ⟨t, ht0, ht1, rfl⟩ := h
  simp only [Line.box, Box.memXY, XY.add, XY.smul, XY.sub]
  refine ⟨?_, ?_, ?_, ?_⟩ <;>
  · rcases le_total ax bx with h1 | h1 <;> rcases le_total ay by' with h2 | h2 <;>
      simp [min_def, max_def, h1, h2] <;> nlinarith

/-- If a point lies in both segments' boxes then the boxes intersect. -/
theorem boxesIntersect_of_mem {P : XY} {b1 b2 : Box}
    (h1 : b1.memXY P) (h2 : b2.memXY P) : boxesIntersect b1 b2 = true := by
  obtain ⟨a1, a2, a3, a4⟩ := h1
  obtain ⟨c1, c2, c3, c4⟩ := h2
  simp only [boxesIntersect, Bool.and_eq_true, decide_eq_true_eq]
  exact ⟨⟨⟨by linarith, by linarith⟩, by linarith⟩, by linarith⟩

/-- Intersecting non-degenerate segments have intersecting bounding boxes:
this is why the R-tree range search (which filters candidate pairs by box
overlap) misses no intersecting pair. -/
theorem boxesIntersect_of_intersectLine {l1 l2 : Line} {p q : XY}
    (h1 : l1.a ≠ l1.b) (h2 : l2.a ≠ l2.b)
    (hp : intersectLine l1 l2 = some (p, q)) :
    boxesIntersect l1.box l2.box = true := by
  obtain ⟨⟨hp1, hp2⟩, _⟩ := intersectLine_some_onSeg h1 h2 hp
  exact boxesIntersect_of_mem (onSeg_mem_box hp1) (onSeg_mem_box hp2)

theorem boxesIntersect_comm (b1 b2 : Box) :
    boxesIntersect b1 b2 = boxesIntersect b2 b1 := by
  simp only [boxesIntersect]
  by_cases h1 : b1.minX ≤ b2.maxX <;> by_cases h2 : b2.minX ≤ b1.maxX <;>
    by_cases h3 : b1.minY ≤ b2.maxY <;> by_cases h4 : b2.minY ≤ b1.maxY <;>
    simp [h1, h2, h3, h4]

theorem getLine_ne {seq : List XY} {i : ℕ} {ln : Line}
    (h : getLine seq i = some ln) : ln.a ≠ ln.b := by
  unfold getLine at h
  rcases hma : seq[i]? with _ | a <;> rcases hmb : seq[i+1]? with _ | b <;>
    rw [hma, hmb] at h <;> simp at h
  obtain ⟨hab, hln⟩ := h
  rw [← hln]
  exact hab

theorem asLines_ne {seq : List XY} {ln : Line} (h : ln ∈ asLines seq) :
    ln.a ≠ ln.b := by
  obtain ⟨i, _, hget⟩ := List.mem_filterMap.mp h
  exact getLine_ne hget

end IntersectLineLemmas

/-! ## Geometry model

The seven geometry variants of the `geom` package, specialised to XY
coordinates (Z and M values do not participate in any predicate the claims
are about). -/

/-- Polygon payload: an outer ring plus hole rings (models the non-empty
case of the geom package's `Polygon`). -/
structure PolyData where
  outer : Ring
  holes : List Ring
deriving DecidableEq, Repr

/-- A Point is either empty or a single location (models `Point`). -/
abbrev Point := Option XY

/-- A polygon is either empty or a `PolyData` (models `Polygon`). -/
abbrev Polygon := Option PolyData

/-- The tagged sum of the seven geometry variants (models `Geometry`). -/
inductive Geometry where
  | point (pt : Point)
  | lineString (seq : List XY)
  | polygon (poly : Polygon)
  | multiPoint (pts : List Point)
  | multiLineString (lss : List (List XY))
  | multiPolygon (polys : List Polygon)
  | collection (geoms : List Geometry)
deriving Repr

/-- Modelled from the spec: the fixed geometric rank used to normalise the
argument order of the `Intersects` dispatch ("Point < LineString < Polygon <
MultiPoint < MultiLineString < MultiPolygon", with collections handled by
recursion after everything else). -/
def rank : Geometry → ℕ
  | .point _ => 1
  | .lineString _ => 2
  | .polygon _ => 3
  | .multiPoint _ => 4
  | .multiLineString _ => 5
  | .multiPolygon _ => 6
  | .collection _ => 7

/-- The rings of a polygon: outer ring first, then holes (models
`Polygon.rings` and the boundary construction). -/
def polygonRings : Polygon → List Ring
  | none => []
  | some pd => pd.outer :: pd.holes

/-- All segments of a list of line strings (models
`MultiLineString.asLines`). -/
def mlsLines (lss : List (List XY)) : List Line :=
  (lss.map asLines).flatten

/-- The boundary of a multi polygon as the list of all of its rings (models
`MultiPolygon.Boundary`). -/
def multiPolygonBoundary (polys : List Polygon) : List (List XY) :=
  (polys.map polygonRings).flatten

/-- The start point of a line string (models `lineString.StartPoint`: the
empty Point for the empty line string). -/
def startPoint (seq : List XY) : Point := seq.head?

/-- The exterior ring of a polygon (models `Polygon.ExteriorRing`; the zero
ring for the empty polygon). -/
def exteriorRing : Polygon → Ring
  | none => []
  | some pd => pd.outer

/-! ### `Intersects` primitives (translated from `alg_intersects.go`) -/

/-- Models `hasIntersectionPointWithPoint`. -/
def hasIntersectionPointWithPoint (pt1 pt2 : Point) : Bool :=
  match pt1, pt2 with
  | some xy1, some xy2 => decide (xy1 = xy2)
  | _, _ => false

/-- Models `hasIntersectionPointWithLineString`. -/
def hasIntersectionPointWithLineString (pt : Point) (seq : List XY) : Bool :=
  match pt with
  | none => false
  | some xy =>
    (List.range seq.length).any fun i =>
      match getLine seq i with
      | some ln => lineIntersectsXY ln xy
      | none => false

/-- Models `hasIntersectionPointWithPolygon`. -/
def hasIntersectionPointWithPolygon (pt : Point) (p : Polygon) : Bool :=
  match pt with
  | none => false
  | some xy =>
    match p with
    | none => false
    | some pd =>
      if pointRingSide xy pd.outer = RingSide.exterior then false
      else if pd.holes.any fun ring => pointRingSide xy ring = RingSide.interior then false
      else true

/-- Models `hasIntersectionPointWithMultiPoint`. -/
def hasIntersectionPointWithMultiPoint (point : Point) (mp : List Point) : Bool :=
  mp.any fun pt => hasIntersectionPointWithPoint point pt

/-- Models `hasIntersectionMultiPointWithMultiPoint`. -/
def hasIntersectionMultiPointWithMultiPoint (mp1 mp2 : List Point) : Bool :=
  mp1.any fun pt => hasIntersectionPointWithMultiPoint pt mp2

/-- Models `hasIntersectionPointWithMultiLineString`. -/
def hasIntersectionPointWithMultiLineString (point : Point) (mls : List (List XY)) : Bool :=
  mls.any fun ls => hasIntersectionPointWithLineString point ls

/-- Models `hasIntersectionPointWithMultiPolygon`. -/
def hasIntersectionPointWithMultiPolygon (pt : Point) (mp : List Polygon) : Bool :=
  mp.any fun p => hasIntersectionPointWithPolygon pt p

/-- Models `hasIntersectionMultiPointWithMultiLineString`. -/
def hasIntersectionMultiPointWithMultiLineString
    (mp : List Point) (mls : List (List XY)) : Bool :=
  mp.any fun pt =>
    match pt with
    | none => false
    | some xy =>
      mls.any fun seq =>
        (List.range seq.length).any fun k =>
          match getLine seq k with
          | some ln => lineIntersectsXY ln xy
          | none => false

/-- Models `hasIntersectionBetweenLines` (with `populateExtension = false`,
which is the only mode the `Intersects` predicate uses): one side's segments
are bulk-loaded into an R-tree and each segment of the other side is tested
against the candidates returned by a box range search. -/
def hasIntersectionBetweenLines (lines1 lines2 : List Line) : Bool :=
  lines2.any fun lnA =>
    lines1.any fun lnB =>
      boxesIntersect lnB.box lnA.box && !(intersectLine lnA lnB).isNone

/-- Models `hasIntersectionLineStringWithLineString`. -/
def hasIntersectionLineStringWithLineString (ls1 ls2 : List XY) : Bool :=
  hasIntersectionBetweenLines (asLines ls1) (asLines ls2)

/-- Models `hasIntersectionMultiLineStringWithMultiLineString`. -/
def hasIntersectionMultiLineStringWithMultiLineString
    (mls1 mls2 : List (List XY)) : Bool :=
  hasIntersectionBetweenLines (mlsLines mls1) (mlsLines mls2)

/-- Models `hasIntersectionMultiLineStringWithMultiPolygon`. -/
def hasIntersectionMultiLineStringWithMultiPolygon
    (mls : List (List XY)) (mp : List Polygon) : Bool :=
  hasIntersectionMultiLineStringWithMultiLineString mls (multiPolygonBoundary mp) ||
  mls.any fun ls => hasIntersectionPointWithMultiPolygon (startPoint ls) mp

/-- Models `hasIntersectionMultiPointWithPolygon`. -/
def hasIntersectionMultiPointWithPolygon (mp : List Point) (p : Polygon) : Bool :=
  mp.any fun pt => hasIntersectionPointWithPolygon pt p

/-- Models `hasIntersectionMultiPointWithMultiPolygon`. -/
def hasIntersectionMultiPointWithMultiPolygon
    (pts : List Point) (polys : List Polygon) : Bool :=
  pts.any fun pt => hasIntersectionPointWithMultiPolygon pt polys

/-- Models `hasIntersectionPolygonWithPolygon`. -/
def hasIntersectionPolygonWithPolygon (p1 p2 : Polygon) : Bool :=
  hasIntersectionMultiLineStringWithMultiLineString
    (polygonRings p1) (polygonRings p2) ||
  hasIntersectionPointWithPolygon (startPoint (exteriorRing p1)) p2 ||
  hasIntersectionPointWithPolygon (startPoint (exteriorRing p2)) p1

/-- Models `hasIntersectionMultiPolygonWithMultiPolygon`. -/
def hasIntersectionMultiPolygonWithMultiPolygon (mp1 mp2 : List Polygon) : Bool :=
  mp1.any fun p1 => mp2.any fun p2 => hasIntersectionPolygonWithPolygon p1 p2

mutual

/-- Models `hasIntersection`: the pair is normalised by geometric rank and
dispatched. -/
def hasIntersection (g1 g2 : Geometry) : Bool :=
  if rank g1 > rank g2 then hasIntersectionOrdered g2 g1
  else hasIntersectionOrdered g1 g2
termination_by (sizeOf g1 + sizeOf g2, 1)
decreasing_by
  · have h : sizeOf g2 + sizeOf g1 = sizeOf g1 + sizeOf g2 := by omega
    rw [h]
    exact Prod.Lex.right _ (by omega)
  · exact Prod.Lex.right _ (by omega)

/-- The dispatch after rank normalisation: a `GeometryCollection` on the
right is handled by recursing into its members; otherwise the type-directed
primitive is applied (the unreachable combinations, which panic in the
source, are mapped to `false`). -/
def hasIntersectionOrdered (g1 g2 : Geometry) : Bool :=
  match g2 with
  | .collection gs => gs.attach.any fun g => hasIntersection g1 g.1
  | .point p2 =>
    match g1 with
    | .point p1 => hasIntersectionPointWithPoint p1 p2
    | _ => false
  | .lineString ls2 =>
    match g1 with
    | .point p1 => hasIntersectionPointWithLineString p1 ls2
    | .lineString ls1 => hasIntersectionLineStringWithLineString ls1 ls2
    | _ => false
  | .polygon q2 =>
    match g1 with
    | .point p1 => hasIntersectionPointWithPolygon p1 q2
    | .lineString ls1 => hasIntersectionMultiLineStringWithMultiPolygon [ls1] [q2]
    | .polygon q1 => hasIntersectionPolygonWithPolygon q1 q2
    | _ => false
  | .multiPoint mp2 =>
    match g1 with
    | .point p1 => hasIntersectionPointWithMultiPoint p1 mp2
    | .lineString ls1 => hasIntersectionMultiPointWithMultiLineString mp2 [ls1]
    | .polygon q1 => hasIntersectionMultiPointWithPolygon mp2 q1
    | .multiPoint mp1 => hasIntersectionMultiPointWithMultiPoint mp1 mp2
    | _ => false
  | .multiLineString mls2 =>
    match g1 with
    | .point p1 => hasIntersectionPointWithMultiLineString p1 mls2
    | .lineString ls1 => hasIntersectionMultiLineStringWithMultiLineString [ls1] mls2
    | .polygon q1 => hasIntersectionMultiLineStringWithMultiPolygon mls2 [q1]
    | .multiPoint mp1 => hasIntersectionMultiPointWithMultiLineString mp1 mls2
    | .multiLineString mls1 => hasIntersectionMultiLineStringWithMultiLineString mls1 mls2
    | _ => false
  | .multiPolygon mp2 =>
    match g1 with
    | .point p1 => hasIntersectionPointWithMultiPolygon p1 mp2
    | .lineString ls1 => hasIntersectionMultiLineStringWithMultiPolygon [ls1] mp2
    | .polygon q1 => hasIntersectionMultiPolygonWithMultiPolygon [q1] mp2
    | .multiPoint mp1 => hasIntersectionMultiPointWithMultiPolygon mp1 mp2
    | .multiLineString mls1 => hasIntersectionMultiLineStringWithMultiPolygon mls1 mp2
    | .multiPolygon mp1 => hasIntersectionMultiPolygonWithMultiPolygon mp1 mp2
    | _ => false
termination_by (sizeOf g1 + sizeOf g2, 0)
decreasing_by
  have := List.sizeOf_lt_of_mem g.2
  exact Prod.Lex.left _ _ (by simp only [Geometry.collection.sizeOf_spec]; omega)

end

/-! ### Strict interior test (claim C4)

Translated from `isPointInteriorToPolygon` in `type_multi_polygon.go` (the
same logic appears in both coexisting modules). -/

/-- Models `isPointInteriorToPolygon`: the strict-interior point test used
by the MultiPolygon interior-disjointness validation.  Mirrors the source's
early-return structure: the point must be interior to the outer ring, and
the test fails as soon as some hole's ring side is *not* `exterior`. -/
def isPointInteriorToPolygon (pt : XY) (poly : PolyData) : Bool :=
  if pointRingSide pt poly.outer ≠ RingSide.interior then false
  else if poly.holes.any (fun hole => pointRingSide pt hole ≠ RingSide.exterior) then false
  else true

/-- C4 (counterexample): the claim's formula `side(outer) = interior ∧
∀ hole, side(hole) ≠ interior` disagrees with the code on a point lying on a
hole's boundary: the code requires every hole side to be `exterior`, so it
classifies such a point as not interior while the claim's formula classifies
it as interior. -/
theorem isPointInteriorToPolygon_hole_boundary_counterexample :
    isPointInteriorToPolygon ⟨1, 2⟩
      ⟨[⟨0,0⟩, ⟨4,0⟩, ⟨4,4⟩, ⟨0,4⟩, ⟨0,0⟩],
       [[⟨1,1⟩, ⟨3,1⟩, ⟨3,3⟩, ⟨1,3⟩, ⟨1,1⟩]]⟩ = false ∧
    pointRingSide ⟨1, 2⟩ [⟨0,0⟩, ⟨4,0⟩, ⟨4,4⟩, ⟨0,4⟩, ⟨0,0⟩] = RingSide.interior ∧
    ∀ h ∈ [[⟨1,1⟩, ⟨3,1⟩, ⟨3,3⟩, ⟨1,3⟩, (⟨1,1⟩ : XY)]],
      pointRingSide ⟨1, 2⟩ h ≠ RingSide.interior := by
  refine ⟨?_, ?_, ?_⟩
  · norm_num [isPointInteriorToPolygon, pointRingSide, asLines, List.range_succ, getLine,
      lineIntersectsXY, rayCrossesSegment, XY.cross, XY.sub, List.filter]
    split_ifs <;> simp
  · norm_num [pointRingSide, asLines, List.range_succ, getLine,
      lineIntersectsXY, rayCrossesSegment, XY.cross, XY.sub, List.filter]
  · intro h hm
    simp only [List.mem_singleton] at hm
    subst hm
    norm_num [pointRingSide, asLines, List.range_succ, getLine,
      lineIntersectsXY, rayCrossesSegment, XY.cross, XY.sub, List.filter]
    simp

/-- C4 (amended): `isPointInteriorToPolygon p q` holds iff the point-in-ring
test reports `p` interior to the outer ring and reports it *exterior* to
every hole (a point on a hole's boundary is not interior to the polygon). -/
theorem isPointInteriorToPolygon_iff_interior_outer_exterior_holes
    (p : XY) (q : PolyData) :
    isPointInteriorToPolygon p q = true ↔
      pointRingSide p q.outer = RingSide.interior ∧
      ∀ h ∈ q.holes, pointRingSide p h = RingSide.exterior := by
  unfold isPointInteriorToPolygon
  split_ifs with hout hholes
  · simp only [Bool.false_eq_true, false_iff]
    intro hc
    exact hout hc.1
  · simp only [Bool.false_eq_true, false_iff]
    intro hc
    obtain ⟨h, hm, hside⟩ := List.any_eq_true.mp hholes
    exact (by simpa using hside : pointRingSide p h ≠ RingSide.exterior) (hc.2 h hm)
  · simp only [true_iff]
    push_neg at hout
    refine ⟨hout, fun h hm => ?_⟩
    by_contra hc
    exact hholes (List.any_eq_true.mpr ⟨h, hm, by simpa using hc⟩)

/-! ### Claims C6 and C10: the `Intersects` dispatcher on points -/

/-- C6: `Intersects` between a non-empty Point and a non-empty Polygon holds
iff the point is inside-or-on the outer ring (ring side not `exterior`) and
not strictly inside any hole; in particular a point on the boundary of the
outer ring or of a hole intersects the polygon. -/
theorem intersects_point_polygon_iff (xy : XY) (pd : PolyData) :
    hasIntersection (.point (some xy)) (.polygon (some pd)) = true ↔
      pointRingSide xy pd.outer ≠ RingSide.exterior ∧
      ∀ h ∈ pd.holes, pointRingSide xy h ≠ RingSide.interior := by
  have hstep : hasIntersection (.point (some xy)) (.polygon (some pd)) =
      hasIntersectionPointWithPolygon (some xy) (some pd) := by
    simp [hasIntersection, hasIntersectionOrdered, rank]
  rw [hstep]
  show (if pointRingSide xy pd.outer = RingSide.exterior then false
    else if pd.holes.any (fun ring => pointRingSide xy ring = RingSide.interior) then false
    else true) = true ↔ _
  split_ifs with hext hhole
  · simp only [Bool.false_eq_true, false_iff]
    intro hc
    exact hc.1 hext
  · simp only [Bool.false_eq_true, false_iff]
    intro hc
    obtain ⟨h, hm, hside⟩ := List.any_eq_true.mp hhole
    exact hc.2 h hm (by simpa using hside)
  · simp only [true_iff]
    refine ⟨hext, fun h hm hc => ?_⟩
    exact hhole (List.any_eq_true.mpr ⟨h, hm, by simpa using hc⟩)

theorem hasIntersectionOrdered_empty_left :
    ∀ (n : ℕ) (g : Geometry), sizeOf g ≤ n →
      hasIntersectionOrdered (.point none) g = false := by
  intro n
  induction n with
  | zero =>
    intro g hg
    cases g <;> simp_all
  | succ n ih =>
    intro g hg
    cases g with
    | point pt =>
      rw [hasIntersectionOrdered]
      cases pt <;> rfl
    | lineString ls =>
      rw [hasIntersectionOrdered]
      rfl
    | polygon q =>
      rw [hasIntersectionOrdered]
      rfl
    | multiPoint mp =>
      rw [hasIntersectionOrdered]
      show hasIntersectionPointWithMultiPoint none mp = false
      simp only [hasIntersectionPointWithMultiPoint, List.any_eq_false]
      intro pt _
      cases pt <;> simp [hasIntersectionPointWithPoint]
    | multiLineString mls =>
      rw [hasIntersectionOrdered]
      show hasIntersectionPointWithMultiLineString none mls = false
      simp [hasIntersectionPointWithMultiLineString, hasIntersectionPointWithLineString]
    | multiPolygon mp =>
      rw [hasIntersectionOrdered]
      show hasIntersectionPointWithMultiPolygon none mp = false
      simp [hasIntersectionPointWithMultiPolygon, hasIntersectionPointWithPolygon]
    | collection gs =>
      rw [hasIntersectionOrdered]
      rw [List.any_eq_false]
      rintro ⟨g, hgm⟩ _
      have hsz : sizeOf g ≤ n := by
        have h1 := List.sizeOf_lt_of_mem hgm
        simp only [Geometry.collection.sizeOf_spec] at hg
        omega
      rw [hasIntersection]
      have hrank : ¬ rank (Geometry.point none) > rank g := by
        cases g <;> simp [rank]
      rw [if_neg hrank, ih g hsz]
      simp

/-- C10: an empty Point (a Point with no XY value) never intersects any
geometry, in either argument order. -/
theorem hasIntersection_empty_point_false (g : Geometry) :
    hasIntersection (.point none) g = false ∧
    hasIntersection g (.point none) = false := by
  have hL : hasIntersectionOrdered (.point none) g = false :=
    hasIntersectionOrdered_empty_left (sizeOf g) g le_rfl
  constructor
  · rw [hasIntersection]
    have hrank : ¬ rank (Geometry.point none) > rank g := by
      cases g <;> simp [rank]
    rw [if_neg hrank, hL]
  · rw [hasIntersection]
    by_cases hrank : rank g > rank (Geometry.point none)
    · rw [if_pos hrank, hL]
    · have hpt : ∃ p, g = Geometry.point p := by
        cases g with
        | point p => exact ⟨p, rfl⟩
        | lineString ls => simp [rank] at hrank
        | polygon q => simp [rank] at hrank
        | multiPoint mp => simp [rank] at hrank
        | multiLineString mls => simp [rank] at hrank
        | multiPolygon mp => simp [rank] at hrank
        | collection gs => simp [rank] at hrank
      obtain ⟨p, rfl⟩ := hpt
      rw [if_neg hrank]
      rw [hasIntersectionOrdered]
      cases p <;> rfl

/-! ### Claim C1: LineString simplicity (`lineString.IsSimple`) -/

/-- Modelled from the spec: the indices of the first and the last
non-degenerate segments of the sequence (`firstAndLastLines`, source file
not available), or `none` when the sequence has no non-degenerate segment. -/
def firstAndLastLines (seq : List XY) : Option (ℕ × ℕ) :=
  let idxs := (List.range seq.length).filter fun i => (getLine seq i).isSome
  match idxs.head?, idxs.getLast? with
  | some f, some l => some (f, l)
  | _, _ => none

/-- Modelled from the spec: the index of the nearest non-degenerate segment
before `i` (`previousLine`, source file not available); degenerate segments
are suppressed, so "immediate predecessor" skips them. -/
def previousLine (seq : List XY) (i : ℕ) : Option ℕ :=
  ((List.range seq.length).filter fun j =>
    decide (j < i) && (getLine seq j).isSome).getLast?

/-- Modelled from the spec: the index of the nearest non-degenerate segment
after `i` (`nextLine`, source file not available). -/
def nextLine (seq : List XY) (i : ℕ) : Option ℕ :=
  ((List.range seq.length).filter fun j =>
    decide (i < j) && (getLine seq j).isSome).head?

/-- Models `lineString.IsClosed`: non-empty with coincident endpoints. -/
def isClosed (seq : List XY) : Bool :=
  !seq.isEmpty && decide (seq.head? = seq.getLast?)

/-- The body of the R-tree range-search callback inside
`lineString.IsSimple`: candidate segment `j` (with segment `other`) is
compared against segment `i` (with segment `ln`).  Returns `false` exactly
when the pair proves the line string non-simple. -/
def simplePairCheck (seq : List XY) (first last i j : ℕ) (ln other : Line) : Bool :=
  if j ≤ i then true
  else
    match intersectLine ln other with
    | none => true
    | some (pA, pB) =>
      if pA ≠ pB then false
      else if previousLine seq i = some j ∨ nextLine seq i = some j then true
      else if isClosed seq = true ∧ i = first ∧ j = last then true
      else false

/-- The body of the outer segment loop of `lineString.IsSimple` for
segment index `i`. -/
def simpleLoopBody (seq : List XY) (first last : ℕ) (i : ℕ) : Bool :=
  match getLine seq i with
  | none => true
  | some ln =>
    (List.range seq.length).all fun j =>
      match getLine seq j with
      | none => true
      | some other =>
        if boxesIntersect other.box ln.box then simplePairCheck seq first last i j ln other
        else true

/-- Models `lineString.IsSimple`: an R-tree over the non-degenerate
segments' boxes is range-searched with each segment's box (the search
returns exactly the segments whose box intersects the query box, per the
R-tree search contract), and each candidate pair is checked with
`simplePairCheck`. -/
def lineStringIsSimple (seq : List XY) : Bool :=
  match firstAndLastLines seq with
  | none => true
  | some (first, last) =>
    (List.range seq.length).all (simpleLoopBody seq first last)

theorem getLine_lt_length {seq : List XY} {i : ℕ} {ln : Line}
    (h : getLine seq i = some ln) : i < seq.length := by
  unfold getLine at h
  rcases hma : seq[i]? with _ | a <;> rw [hma] at h
  · rcases hmb : seq[i+1]? with _ | b <;> rw [hmb] at h <;> simp at h
  · by_contra hc
    push_neg at hc
    rw [List.getElem?_eq_none hc] at hma
    exact absurd hma (by simp)

theorem firstAndLastLines_isSome {seq : List XY} {i : ℕ} {ln : Line}
    (h : getLine seq i = some ln) :
    ∃ fl, firstAndLastLines seq = some fl := by
  unfold firstAndLastLines
  have hmem : i ∈ (List.range seq.length).filter fun k => (getLine seq k).isSome := by
    rw [List.mem_filter]
    exact ⟨List.mem_range.mpr (getLine_lt_length h), by rw [h]; rfl⟩
  have hne : ((List.range seq.length).filter fun k => (getLine seq k).isSome) ≠ [] :=
    List.ne_nil_of_mem hmem
  simp only
  rcases hh : ((List.range seq.length).filter fun k => (getLine seq k).isSome).head? with _ | f
  · exact absurd (List.head?_eq_none_iff.mp hh) hne
  · rcases hl : ((List.range seq.length).filter fun k => (getLine seq k).isSome).getLast? with _ | l
    · exact absurd (List.getLast?_eq_none_iff.mp hl) hne
    · exact ⟨(f, l), rfl⟩

/-- C1: for every non-empty LineString, `IsSimple` returns true iff every
pair `i < j` of non-degenerate segments either does not intersect, or
intersects in a single point and `j` is the immediate non-degenerate
predecessor or successor of `i`, or the pair is exactly the (first, last)
segment pair of a closed LineString.  In particular any positive-length
overlap, and any other single-point contact, makes `IsSimple` return false.
The forward direction certifies that the R-tree box filter misses no
intersecting pair. -/
theorem lineString_isSimple_iff (seq : List XY) (_hne : seq ≠ []) :
    lineStringIsSimple seq = true ↔
      ∀ i j lni lnj, i < j → getLine seq i = some lni → getLine seq j = some lnj →
        intersectLine lni lnj = none ∨
        ∃ p, intersectLine lni lnj = some (p, p) ∧
          (previousLine seq i = some j ∨ nextLine seq i = some j ∨
           (isClosed seq = true ∧ firstAndLastLines seq = some (i, j))) := by
  unfold lineStringIsSimple
  rcases hFL : firstAndLastLines seq with _ | ⟨first, last⟩
  · constructor
    · intro _ i j lni lnj hij hgi hgj
      obtain ⟨fl, hfl⟩ := firstAndLastLines_isSome hgi
      rw [hFL] at hfl
      exact absurd hfl (by simp)
    · intro _
      rfl
  · show (List.range seq.length).all (simpleLoopBody seq first last) = true ↔ _
    constructor
    · -- IsSimple = true implies every pair is allowed
      intro h i j lni lnj hij hgi hgj
      by_contra hbad
      push_neg at hbad
      obtain ⟨hnn, hnotallowed⟩ := hbad
      obtain ⟨⟨p, q⟩, hsome⟩ : ∃ pq, intersectLine lni lnj = some pq := by
        cases hI : intersectLine lni lnj with
        | none => exact absurd hI hnn
        | some v => exact ⟨v, rfl⟩
      have hbox : boxesIntersect lnj.box lni.box = true := by
        rw [boxesIntersect_comm]
        exact boxesIntersect_of_intersectLine (getLine_ne hgi) (getLine_ne hgj) hsome
      have hi := List.all_eq_true.mp h i (List.mem_range.mpr (getLine_lt_length hgi))
      simp only [simpleLoopBody, hgi] at hi
      have hj := List.all_eq_true.mp hi j (List.mem_range.mpr (getLine_lt_length hgj))
      simp only [hgj, if_pos hbox] at hj
      simp only [simplePairCheck, hsome] at hj
      rw [if_neg (by omega : ¬ j ≤ i)] at hj
      by_cases hpq : p = q
      · subst hpq
        rw [if_neg (by simp)] at hj
        by_cases hadj : previousLine seq i = some j ∨ nextLine seq i = some j
        · rcases hadj with hprev | hnext
          · exact (hnotallowed p hsome).1 hprev
          · exact (hnotallowed p hsome).2.1 hnext
        · rw [if_neg hadj] at hj
          split_ifs at hj with hclose
          obtain ⟨hcl, hif, hjl⟩ := hclose
          exact (hnotallowed p hsome).2.2 hcl (by rw [hif, hjl])
      · rw [if_pos (by simpa using hpq)] at hj
        exact absurd hj (by simp)
    · -- every pair allowed implies IsSimple = true
      intro hR
      rw [List.all_eq_true]
      intro i _
      unfold simpleLoopBody
      cases hgi : getLine seq i with
      | none => rfl
      | some ln =>
        rw [List.all_eq_true]
        intro j _
        rcases hgj : getLine seq j with _ | other
        · simp [hgj]
        · simp only [hgj]
          split_ifs with hbox
          · unfold simplePairCheck
            by_cases hji : j ≤ i
            · rw [if_pos hji]
            · rw [if_neg hji]
              rcases hR i j ln other (by omega) hgi hgj with hnone | ⟨p, hsome, hallow⟩
              · rw [hnone]
              · simp only [hsome]
                rw [if_neg (by simp : ¬ p ≠ p)]
                by_cases hadj : previousLine seq i = some j ∨ nextLine seq i = some j
                · rw [if_pos hadj]
                · rw [if_neg hadj]
                  rcases hallow with hprev | hnext | ⟨hcl, hfl2⟩
                  · exact absurd (Or.inl hprev) hadj
                  · exact absurd (Or.inr hnext) hadj
                  · simp only [Option.some.injEq, Prod.mk.injEq] at hfl2
                    rw [if_pos ⟨hcl, hfl2.1.symm, hfl2.2.symm⟩]
          · rfl

/-- C1 witness: the theorem applied to the concrete closed two-segment
LineString of spec scenario 2. -/
theorem lineString_isSimple_iff_witness :
    (([⟨0,0⟩, ⟨1,1⟩, ⟨0,0⟩] : List XY) ≠ []) ∧
    (lineStringIsSimple [⟨0,0⟩, ⟨1,1⟩, ⟨0,0⟩] = true ↔
      ∀ i j lni lnj, i < j →
        getLine [⟨0,0⟩, ⟨1,1⟩, ⟨0,0⟩] i = some lni →
        getLine [⟨0,0⟩, ⟨1,1⟩, ⟨0,0⟩] j = some lnj →
        intersectLine lni lnj = none ∨
        ∃ p, intersectLine lni lnj = some (p, p) ∧
          (previousLine [⟨0,0⟩, ⟨1,1⟩, ⟨0,0⟩] i = some j ∨
           nextLine [⟨0,0⟩, ⟨1,1⟩, ⟨0,0⟩] i = some j ∨
           (isClosed [⟨0,0⟩, ⟨1,1⟩, ⟨0,0⟩] = true ∧
            firstAndLastLines [⟨0,0⟩, ⟨1,1⟩, ⟨0,0⟩] = some (i, j)))) :=
  ⟨by simp, lineString_isSimple_iff _ (by simp)⟩

/-! ### Claim C7: symmetry of `Intersects` -/

theorem any_attach {α : Type} (l : List α) (f : α → Bool) :
    (l.attach.any fun x => f x.1) = l.any f := by
  rw [Bool.eq_iff_iff]
  simp only [List.any_eq_true, List.mem_attach, true_and, Subtype.exists]
  constructor
  · rintro ⟨a, ha, hf⟩
    exact ⟨a, ha, hf⟩
  · rintro ⟨a, ha, hf⟩
    exact ⟨a, ha, hf⟩

theorem any_swap {α β : Type} (l1 : List α) (l2 : List β) (f : α → β → Bool) :
    (l1.any fun a => l2.any fun b => f a b) = l2.any fun b => l1.any fun a => f a b := by
  rw [Bool.eq_iff_iff]
  simp only [List.any_eq_true]
  tauto

theorem hasIntersectionPointWithPoint_comm (p1 p2 : Point) :
    hasIntersectionPointWithPoint p1 p2 = hasIntersectionPointWithPoint p2 p1 := by
  cases p1 <;> cases p2 <;> simp [hasIntersectionPointWithPoint, eq_comm]

theorem mlsLines_ne {lss : List (List XY)} {l : Line} (h : l ∈ mlsLines lss) :
    l.a ≠ l.b := by
  obtain ⟨lines, hmem, hl⟩ := List.mem_flatten.mp h
  obtain ⟨seq, _, rfl⟩ := List.mem_map.mp hmem
  exact asLines_ne hl

theorem hasIntersectionBetweenLines_comm {lines1 lines2 : List Line}
    (h1 : ∀ l ∈ lines1, l.a ≠ l.b) (h2 : ∀ l ∈ lines2, l.a ≠ l.b) :
    hasIntersectionBetweenLines lines1 lines2 =
    hasIntersectionBetweenLines lines2 lines1 := by
  unfold hasIntersectionBetweenLines
  rw [Bool.eq_iff_iff]
  simp only [List.any_eq_true, Bool.and_eq_true, Bool.not_eq_true', Option.isNone_eq_false_iff]
  constructor
  · rintro ⟨lnA, hA, lnB, hB, hbox, hsome⟩
    refine ⟨lnB, hB, lnA, hA, by rw [boxesIntersect_comm]; exact hbox, ?_⟩
    rw [Option.isSome_iff_ne_none] at hsome ⊢
    intro hc
    exact hsome ((intersectLine_none_comm (h2 lnA hA) (h1 lnB hB)).mpr hc)
  · rintro ⟨lnA, hA, lnB, hB, hbox, hsome⟩
    refine ⟨lnB, hB, lnA, hA, by rw [boxesIntersect_comm]; exact hbox, ?_⟩
    rw [Option.isSome_iff_ne_none] at hsome ⊢
    intro hc
    exact hsome ((intersectLine_none_comm (h1 lnA hA) (h2 lnB hB)).mpr hc)

theorem hasIntersectionMLSWithMLS_comm (mls1 mls2 : List (List XY)) :
    hasIntersectionMultiLineStringWithMultiLineString mls1 mls2 =
    hasIntersectionMultiLineStringWithMultiLineString mls2 mls1 :=
  hasIntersectionBetweenLines_comm
    (fun _ h => mlsLines_ne h) (fun _ h => mlsLines_ne h)

theorem hasIntersectionLineStringWithLineString_comm (ls1 ls2 : List XY) :
    hasIntersectionLineStringWithLineString ls1 ls2 =
    hasIntersectionLineStringWithLineString ls2 ls1 :=
  hasIntersectionBetweenLines_comm
    (fun _ h => asLines_ne h) (fun _ h => asLines_ne h)

theorem hasIntersectionMultiPointWithMultiPoint_comm (mp1 mp2 : List Point) :
    hasIntersectionMultiPointWithMultiPoint mp1 mp2 =
    hasIntersectionMultiPointWithMultiPoint mp2 mp1 := by
  unfold hasIntersectionMultiPointWithMultiPoint hasIntersectionPointWithMultiPoint
  rw [any_swap]
  congr 1
  funext pt
  congr 1
  funext pt2
  exact hasIntersectionPointWithPoint_comm pt2 pt

theorem hasIntersectionPolygonWithPolygon_comm (p1 p2 : Polygon) :
    hasIntersectionPolygonWithPolygon p1 p2 =
    hasIntersectionPolygonWithPolygon p2 p1 := by
  unfold hasIntersectionPolygonWithPolygon
  rw [hasIntersectionMLSWithMLS_comm]
  rw [Bool.eq_iff_iff]
  simp only [Bool.or_eq_true]
  tauto

theorem hasIntersectionMultiPolygonWithMultiPolygon_comm (mp1 mp2 : List Polygon) :
    hasIntersectionMultiPolygonWithMultiPolygon mp1 mp2 =
    hasIntersectionMultiPolygonWithMultiPolygon mp2 mp1 := by
  unfold hasIntersectionMultiPolygonWithMultiPolygon
  rw [any_swap]
  congr 1
  funext q1
  congr 1
  funext q2
  exact hasIntersectionPolygonWithPolygon_comm q2 q1

theorem any_congr_mem {α : Type} {l : List α} {f g : α → Bool}
    (h : ∀ a ∈ l, f a = g a) : l.any f = l.any g := by
  induction l with
  | nil => rfl
  | cons a l ih =>
    simp only [List.any_cons, h a (by simp), ih fun x hx => h x (by simp [hx])]

/-- Unfolding: intersecting with a `GeometryCollection` on the right tests
each member. -/
theorem hasIntersection_collection_right (g : Geometry) (gs : List Geometry) :
    hasIntersection g (.collection gs) = gs.any fun m => hasIntersection g m := by
  rw [hasIntersection]
  rw [if_neg (by cases g <;> simp [rank])]
  rw [hasIntersectionOrdered]
  exact any_attach gs _

theorem hasIntersection_comm_aux :
    ∀ (n : ℕ) (g1 g2 : Geometry), sizeOf g1 + sizeOf g2 ≤ n →
      hasIntersection g1 g2 = hasIntersection g2 g1 := by
  intro n
  induction n with
  | zero =>
    intro g1 g2 hsz
    exfalso
    cases g1 <;> simp_all
  | succ n ih =>
    intro g1 g2 hsz
    rcases Nat.lt_trichotomy (rank g1) (rank g2) with hlt | heq | hgt
    · rw [hasIntersection, hasIntersection, if_neg (by omega), if_pos (by omega)]
    · rw [hasIntersection, hasIntersection, if_neg (by omega), if_neg (by omega)]
      cases g1 <;> cases g2 <;> try simp [rank] at heq
      · rename_i p1 p2
        rw [hasIntersectionOrdered, hasIntersectionOrdered]
        exact hasIntersectionPointWithPoint_comm p1 p2
      · rename_i ls1 ls2
        rw [hasIntersectionOrdered, hasIntersectionOrdered]
        exact hasIntersectionLineStringWithLineString_comm ls1 ls2
      · rename_i q1 q2
        rw [hasIntersectionOrdered, hasIntersectionOrdered]
        exact hasIntersectionPolygonWithPolygon_comm q1 q2
      · rename_i mp1 mp2
        rw [hasIntersectionOrdered, hasIntersectionOrdered]
        exact hasIntersectionMultiPointWithMultiPoint_comm mp1 mp2
      · rename_i m1 m2
        rw [hasIntersectionOrdered, hasIntersectionOrdered]
        exact hasIntersectionMLSWithMLS_comm m1 m2
      · rename_i m1 m2
        rw [hasIntersectionOrdered, hasIntersectionOrdered]
        exact hasIntersectionMultiPolygonWithMultiPolygon_comm m1 m2
      · rename_i gs1 gs2
        rw [hasIntersectionOrdered, hasIntersectionOrdered]
        rw [any_attach gs2 _, any_attach gs1 _]
        simp only [Geometry.collection.sizeOf_spec] at hsz
        have hL : (gs2.any fun m => hasIntersection (Geometry.collection gs1) m) =
            gs2.any fun m => gs1.any fun m2 => hasIntersection m2 m := by
          apply any_congr_mem
          intro m hm
          have hszm := List.sizeOf_lt_of_mem hm
          rw [ih (Geometry.collection gs1) m
            (by simp only [Geometry.collection.sizeOf_spec]; omega)]
          rw [hasIntersection_collection_right]
          apply any_congr_mem
          intro m2 hm2
          have hszm2 := List.sizeOf_lt_of_mem hm2
          exact ih m m2 (by omega)
        have hR : (gs1.any fun m2 => hasIntersection (Geometry.collection gs2) m2) =
            gs1.any fun m2 => gs2.any fun m => hasIntersection m2 m := by
          apply any_congr_mem
          intro m2 hm2
          have hszm2 := List.sizeOf_lt_of_mem hm2
          rw [ih (Geometry.collection gs2) m2
            (by simp only [Geometry.collection.sizeOf_spec]; omega)]
          rw [hasIntersection_collection_right]
        rw [hL, hR]
        exact any_swap gs2 gs1 fun m m2 => hasIntersection m2 m
    · rw [hasIntersection, hasIntersection, if_pos (by omega), if_neg (by omega)]

/-- C7: `Intersects` is symmetric across all seven geometry variants,
including `GeometryCollection`. -/
theorem hasIntersection_comm (g1 g2 : Geometry) :
    hasIntersection g1 g2 = hasIntersection g2 g1 :=
  hasIntersection_comm_aux (sizeOf g1 + sizeOf g2) g1 g2 le_rfl

/-! ### Claim C2: the old-module `NewPolygon` constructor -/

/-- The old module's polygon value: outer ring plus holes. -/
structure OldPolygon where
  outer : Ring
  holes : List Ring
deriving DecidableEq, Repr

/-- Extend an optional envelope, kept as its (min, max) corners, to include
a point (models `Envelope.extend`). -/
def extendEnv : Option (XY × XY) → XY → Option (XY × XY)
  | none, p => some (p, p)
  | some (mn, mx), p =>
    some (⟨min mn.x p.x, min mn.y p.y⟩, ⟨max mx.x p.x, max mx.y p.y⟩)

/-- Modelled from the spec: the envelope of `ring1.Intersection(ring2)`
(the general `Intersection` engine's source is not available).  The
intersection of two rings is the union of the pairwise segment
intersections, and its envelope is the extension over all reported
intersection extreme points; `none` means the intersection is empty. -/
def ringIntersectionEnv (r1 r2 : Ring) : Option (XY × XY) :=
  (asLines r1).foldl
    (fun acc l1 =>
      (asLines r2).foldl
        (fun acc2 l2 =>
          match intersectLine l1 l2 with
          | none => acc2
          | some (p, q) => extendEnv (extendEnv acc2 p) q)
        acc)
    none

/-- A vertex of the connectedness graph of `NewPolygon`: one vertex per
ring, one per distinct intersection point (the intersection-vertex table
keyed by point hash is modelled by using the point itself). -/
inductive PolyVertex where
  | ringIdx (i : ℕ)
  | interPt (p : XY)
deriving DecidableEq, Repr

/-- Modelled from the spec: `graph.addEdge` (source file not available) with
edge-set semantics: "Add an edge between an intersection-point node and each
ring that passes through it". -/
def addEdge (edges : List (PolyVertex × PolyVertex)) (u v : PolyVertex) :
    List (PolyVertex × PolyVertex) :=
  if (u, v) ∈ edges then edges else edges ++ [(u, v)]

/-- Merge two components of the component list. -/
def mergeComps (comps : List (List PolyVertex)) (cu cv : ℕ) :
    List (List PolyVertex) :=
  (comps.getD cu [] ++ comps.getD cv []) ::
    (comps.eraseIdx (max cu cv)).eraseIdx (min cu cv)

/-- The component containing a vertex, if any. -/
def findComp (comps : List (List PolyVertex)) (v : PolyVertex) : Option ℕ :=
  comps.findIdx? fun c => decide (v ∈ c)

/-- Modelled from the spec: undirected-graph cycle detection
(`graph.hasCycle`, source file not available), by processing the edge list
with a union of components: an edge whose endpoints already share a
component closes a cycle. -/
def hasCycleAux : List (PolyVertex × PolyVertex) → List (List PolyVertex) → Bool
  | [], _ => false
  | (u, v) :: rest, comps =>
    if u = v then true
    else
      match findComp comps u, findComp comps v with
      | some cu, some cv =>
        if cu = cv then true else hasCycleAux rest (mergeComps comps cu cv)
      | some cu, none => hasCycleAux rest (comps.set cu (v :: comps.getD cu []))
      | none, some cv => hasCycleAux rest (comps.set cv (u :: comps.getD cv []))
      | none, none => hasCycleAux rest ([u, v] :: comps)

/-- Whether the undirected graph given by the edge list contains a cycle. -/
def hasCycle (edges : List (PolyVertex × PolyVertex)) : Bool :=
  hasCycleAux edges []

/-- The ordered pairs `(i, j)` with `i < j < n`, in the double-loop order of
`NewPolygon`. -/
def orderedPairs (n : ℕ) : List (ℕ × ℕ) :=
  (List.range n).flatMap fun i =>
    ((List.range n).filter fun j => decide (i < j)).map fun j => (i, j)

/-- The ring-pair loop of `NewPolygon`: each pair of rings is intersected;
more than one distinct intersection point is an error, and a single
intersection point adds the two edges `(pt, i)` and `(pt, j)` to the
connectedness graph. -/
def ringPairStep (rings : List Ring) :
    List (ℕ × ℕ) → List (PolyVertex × PolyVertex) →
    Except String (List (PolyVertex × PolyVertex))
  | [], acc => .ok acc
  | (i, j) :: rest, acc =>
    match ringIntersectionEnv (rings.getD i []) (rings.getD j []) with
    | none => ringPairStep rings rest acc
    | some (mn, mx) =>
      if mn ≠ mx then .error "polygon rings must not intersect at multiple points"
      else
        ringPairStep rings rest
          (addEdge (addEdge acc (PolyVertex.interPt mn) (PolyVertex.ringIdx i))
            (PolyVertex.interPt mn) (PolyVertex.ringIdx j))

/-- The connectedness graph accumulated over a pair list (the value
`ringPairStep` computes when no pair errors). -/
def graphFold (rings : List Ring) (pairs : List (ℕ × ℕ))
    (acc : List (PolyVertex × PolyVertex)) : List (PolyVertex × PolyVertex) :=
  pairs.foldl
    (fun acc2 ij =>
      match ringIntersectionEnv (rings.getD ij.1 []) (rings.getD ij.2 []) with
      | none => acc2
      | some (mn, mx) =>
        if mn = mx then
          addEdge (addEdge acc2 (PolyVertex.interPt mn) (PolyVertex.ringIdx ij.1))
            (PolyVertex.interPt mn) (PolyVertex.ringIdx ij.2)
        else acc2)
    acc

/-- The bipartite ring/intersection-point graph of a ring list. -/
def polygonGraph (rings : List Ring) : List (PolyVertex × PolyVertex) :=
  graphFold rings (orderedPairs rings.length) []

/-- Models `NewPolygon` of the old module: rings may only intersect
pairwise at single points, every hole segment start point must not be
exterior to the outer ring, and the ring/intersection-point graph must be
acyclic.  Note the ring list is `append(holes, outer)`: the outer ring has
the last index. -/
def newPolygon (outer : Ring) (holes : List Ring) : Except String OldPolygon :=
  let allRings := holes ++ [outer]
  match ringPairStep allRings (orderedPairs allRings.length) [] with
  | .error e => .error e
  | .ok edges =>
    if holes.any (fun hole =>
        (asLines hole).any fun ln => pointRingSide ln.a outer = RingSide.exterior) then
      .error "hole must be inside outer ring"
    else if hasCycle edges then
      .error "polygon interiors must be connected"
    else
      .ok ⟨outer, holes⟩

/-- The first rejection condition of the claim: some pair of rings
intersects in more than one distinct point. -/
def RingsMultiIntersect (rings : List Ring) : Prop :=
  ∃ i j, i < j ∧ j < rings.length ∧
    ∃ mn mx, ringIntersectionEnv (rings.getD i []) (rings.getD j []) = some (mn, mx) ∧
      mn ≠ mx

/-- The second rejection condition of the claim: some control point of a
hole lies strictly exterior to the outer ring. -/
def HoleOutsideOuter (outer : Ring) (holes : List Ring) : Prop :=
  ∃ hole ∈ holes, ∃ ln ∈ asLines hole, pointRingSide ln.a outer = RingSide.exterior

theorem mem_orderedPairs {n i j : ℕ} :
    (i, j) ∈ orderedPairs n ↔ i < j ∧ j < n := by
  unfold orderedPairs
  simp only [List.mem_flatMap, List.mem_map, List.mem_filter, List.mem_range,
    decide_eq_true_eq, Prod.mk.injEq]
  constructor
  · rintro ⟨a, _, b, ⟨hb, hab⟩, rfl, rfl⟩
    exact ⟨hab, hb⟩
  · rintro ⟨hij, hjn⟩
    exact ⟨i, lt_trans hij hjn, j, ⟨hjn, hij⟩, rfl, rfl⟩

/-- A pair in the pair list with a multi-point ring intersection. -/
def PairMulti (rings : List Ring) (ij : ℕ × ℕ) : Prop :=
  ∃ mn mx,
    ringIntersectionEnv (rings.getD ij.1 []) (rings.getD ij.2 []) = some (mn, mx) ∧
    mn ≠ mx

theorem ringPairStep_spec (rings : List Ring) :
    ∀ (pairs : List (ℕ × ℕ)) (acc : List (PolyVertex × PolyVertex)),
      ((∃ e, ringPairStep rings pairs acc = .error e) ↔
        ∃ ij ∈ pairs, PairMulti rings ij) ∧
      (¬ (∃ ij ∈ pairs, PairMulti rings ij) →
        ringPairStep rings pairs acc = .ok (graphFold rings pairs acc)) := by
  intro pairs
  induction pairs with
  | nil =>
    intro acc
    refine ⟨⟨fun ⟨e, he⟩ => absurd he (by simp [ringPairStep]), by simp⟩, fun _ => rfl⟩
  | cons ij rest ih =>
    intro acc
    obtain ⟨i, j⟩ := ij
    rcases henv : ringIntersectionEnv (rings.getD i []) (rings.getD j []) with _ | ⟨mn, mx⟩
    · have hstep : ringPairStep rings ((i, j) :: rest) acc = ringPairStep rings rest acc := by
        rw [ringPairStep, henv]
      have hfold : graphFold rings ((i, j) :: rest) acc = graphFold rings rest acc := by
        rw [graphFold, List.foldl_cons]
        simp only [henv]
        rfl
      have hnotfirst : ¬ PairMulti rings (i, j) := by
        rintro ⟨mn, mx, hsome, _⟩
        rw [henv] at hsome
        exact absurd hsome (by simp)
      constructor
      · rw [hstep, (ih acc).1]
        simp only [List.mem_cons]
        constructor
        · rintro ⟨ij2, hm, hp⟩
          exact ⟨ij2, Or.inr hm, hp⟩
        · rintro ⟨ij2, hm | hm, hp⟩
          · exact absurd hp (hm ▸ hnotfirst)
          · exact ⟨ij2, hm, hp⟩
      · intro hno
        rw [hstep, hfold]
        exact (ih acc).2 fun ⟨ij2, hm, hp⟩ => hno ⟨ij2, List.mem_cons_of_mem _ hm, hp⟩
    · by_cases hmm : mn = mx
      · subst hmm
        have hstep : ringPairStep rings ((i, j) :: rest) acc =
            ringPairStep rings rest
              (addEdge (addEdge acc (PolyVertex.interPt mn) (PolyVertex.ringIdx i))
                (PolyVertex.interPt mn) (PolyVertex.ringIdx j)) := by
          rw [ringPairStep]
          simp only [henv, ne_eq, not_true_eq_false, if_false, ite_false]
        have hfold : graphFold rings ((i, j) :: rest) acc =
            graphFold rings rest
              (addEdge (addEdge acc (PolyVertex.interPt mn) (PolyVertex.ringIdx i))
                (PolyVertex.interPt mn) (PolyVertex.ringIdx j)) := by
          rw [graphFold, List.foldl_cons]
          simp only [henv]
          rfl
        have hnotfirst : ¬ PairMulti rings (i, j) := by
          rintro ⟨mn2, mx2, hsome, hne⟩
          rw [henv] at hsome
          simp only [Option.some.injEq, Prod.mk.injEq] at hsome
          exact hne (hsome.1.symm.trans hsome.2 ▸ rfl)
        constructor
        · rw [hstep, (ih _).1]
          simp only [List.mem_cons]
          constructor
          · rintro ⟨ij2, hm, hp⟩
            exact ⟨ij2, Or.inr hm, hp⟩
          · rintro ⟨ij2, hm | hm, hp⟩
            · exact absurd hp (hm ▸ hnotfirst)
            · exact ⟨ij2, hm, hp⟩
        · intro hno
          rw [hstep, hfold]
          exact (ih _).2 fun ⟨ij2, hm, hp⟩ => hno ⟨ij2, List.mem_cons_of_mem _ hm, hp⟩
      · have hstep : ∃ e, ringPairStep rings ((i, j) :: rest) acc = .error e := by
          refine ⟨"polygon rings must not intersect at multiple points", ?_⟩
          rw [ringPairStep]
          simp only [henv]
          rw [if_pos (by simpa using hmm)]
        have hfirst : PairMulti rings (i, j) := ⟨mn, mx, henv, hmm⟩
        constructor
        · exact ⟨fun _ => ⟨(i, j), List.mem_cons_self _ _, hfirst⟩, fun _ => hstep⟩
        · intro hno
          exact absurd ⟨(i, j), List.mem_cons_self _ _, hfirst⟩ hno

theorem ringsMultiIntersect_iff (rings : List Ring) :
    RingsMultiIntersect rings ↔
      ∃ ij ∈ orderedPairs rings.length, PairMulti rings ij := by
  constructor
  · rintro ⟨i, j, hij, hjn, mn, mx, hsome, hne⟩
    exact ⟨(i, j), mem_orderedPairs.mpr ⟨hij, hjn⟩, mn, mx, hsome, hne⟩
  · rintro ⟨⟨i, j⟩, hm, mn, mx, hsome, hne⟩
    obtain ⟨hij, hjn⟩ := mem_orderedPairs.mp hm
    exact ⟨i, j, hij, hjn, mn, mx, hsome, hne⟩

theorem holeOutsideOuter_iff (outer : Ring) (holes : List Ring) :
    (holes.any fun hole =>
      (asLines hole).any fun ln =>
        pointRingSide ln.a outer = RingSide.exterior) = true ↔
    HoleOutsideOuter outer holes := by
  simp only [HoleOutsideOuter, List.any_eq_true, decide_eq_true_eq]

/-- C2: `NewPolygon(outer, holes...)` returns an error iff some ring pair
intersects in more than one distinct point, or some hole control point is
strictly exterior to the outer ring, or the bipartite ring /
intersection-point graph has a cycle; otherwise it returns the polygon made
of exactly the given rings. -/
theorem newPolygon_error_iff (outer : Ring) (holes : List Ring) :
    ((∃ e, newPolygon outer holes = .error e) ↔
      RingsMultiIntersect (holes ++ [outer]) ∨ HoleOutsideOuter outer holes ∨
      hasCycle (polygonGraph (holes ++ [outer])) = true) ∧
    (¬ (RingsMultiIntersect (holes ++ [outer]) ∨ HoleOutsideOuter outer holes ∨
        hasCycle (polygonGraph (holes ++ [outer])) = true) →
      newPolygon outer holes = .ok ⟨outer, holes⟩) := by
  by_cases hMulti : RingsMultiIntersect (holes ++ [outer])
  · obtain ⟨e, he⟩ :=
      ((ringPairStep_spec (holes ++ [outer])
        (orderedPairs (holes ++ [outer]).length) []).1).mpr
      ((ringsMultiIntersect_iff (holes ++ [outer])).mp hMulti)
    have hnp : newPolygon outer holes = .error e := by
      rw [newPolygon]
      rw [he]
    refine ⟨⟨fun _ => Or.inl hMulti, fun _ => ⟨e, hnp⟩⟩, fun hno => ?_⟩
    exact absurd (Or.inl hMulti) hno
  · have hok : ringPairStep (holes ++ [outer])
        (orderedPairs (holes ++ [outer]).length) [] =
        .ok (polygonGraph (holes ++ [outer])) :=
      (ringPairStep_spec (holes ++ [outer]) _ []).2
        fun hc => hMulti ((ringsMultiIntersect_iff (holes ++ [outer])).mpr hc)
    have hnp : newPolygon outer holes =
        (if holes.any (fun hole =>
            (asLines hole).any fun ln =>
              pointRingSide ln.a outer = RingSide.exterior) then
          (.error "hole must be inside outer ring" : Except String OldPolygon)
        else if hasCycle (polygonGraph (holes ++ [outer])) then
          .error "polygon interiors must be connected"
        else
          .ok ⟨outer, holes⟩) := by
      rw [newPolygon]
      rw [hok]
    by_cases hHole : HoleOutsideOuter outer holes
    · have hany := (holeOutsideOuter_iff outer holes).mpr hHole
      rw [if_pos hany] at hnp
      refine ⟨⟨fun _ => Or.inr (Or.inl hHole), fun _ => ⟨_, hnp⟩⟩, fun hno => ?_⟩
      exact absurd (Or.inr (Or.inl hHole)) hno
    · have hany : (holes.any fun hole =>
          (asLines hole).any fun ln =>
            pointRingSide ln.a outer = RingSide.exterior) = false := by
        rw [← Bool.not_eq_true]
        intro hc
        exact hHole ((holeOutsideOuter_iff outer holes).mp hc)
      rw [if_neg (by simp [hany])] at hnp
      by_cases hCycle : hasCycle (polygonGraph (holes ++ [outer])) = true
      · rw [if_pos hCycle] at hnp
        refine ⟨⟨fun _ => Or.inr (Or.inr hCycle), fun _ => ⟨_, hnp⟩⟩, fun hno => ?_⟩
        exact absurd (Or.inr (Or.inr hCycle)) hno
      · rw [if_neg hCycle] at hnp
        refine ⟨⟨fun ⟨e, he⟩ => absurd (hnp ▸ he) (by simp), ?_⟩, fun _ => hnp⟩
        rintro (h | h | h)
        · exact absurd h hMulti
        · exact absurd h hHole
        · exact absurd h hCycle

/-! ### Claim C3: sweep-based vs naive `NewMultiPolygon`

The sweep constructor (geom module) and the naive constructor (old module)
run the same two pair checks (boundary-intersection dimension and interior
disjointness); the pair check and the envelope x-extent are abstracted as
parameters, which is all the sweep logic depends on. -/

section Sweep

variable {α : Type}

/-- The heap-drop loop of the sweep (`for len(active.data) > 0 &&
intervals[active.data[0]].maxX < currentX { active.pop() }`): the active
list is kept sorted by `maxX`, so its head is the heap top. -/
def popDrop (maxX : α → ℚ) (x : ℚ) : List α → List α
  | [] => []
  | q :: rest => if maxX q < x then popDrop maxX x rest else q :: rest

/-- The heap push (`active.push(i)`), modelled as ordered insertion into the
maxX-sorted active list. -/
def pushByMaxX (maxX : α → ℚ) (p : α) : List α → List α
  | [] => [p]
  | q :: rest => if maxX p ≤ maxX q then p :: q :: rest else q :: pushByMaxX maxX p rest

/-- The sweep loop of the validating `NewMultiPolygon`: polygons arrive in
ascending `minX` order, stale active polygons are dropped, and the current
polygon is checked against every remaining active polygon. -/
def sweepGo (minX maxX : α → ℚ) (check : α → α → Bool) :
    List α → List α → Bool
  | [], _ => true
  | p :: rest, active =>
    let act := popDrop maxX (minX p) active
    (act.all fun q => check p q) && sweepGo minX maxX check rest (pushByMaxX maxX p act)

/-- Models the validating `NewMultiPolygon` (geom module): sort by envelope
minX, then sweep.  Returns `true` when no pair check fails (no error). -/
def sweepAccept (minX maxX : α → ℚ) (check : α → α → Bool) (polys : List α) : Bool :=
  sweepGo minX maxX check (polys.insertionSort fun a b => minX a ≤ minX b) []

/-- Models the old module's `NewMultiPolygon`: the same pair check over
every unordered pair `i < j`, in input order. -/
def naiveAccept (check : α → α → Bool) : List α → Bool
  | [] => true
  | p :: rest => (rest.all fun q => check p q) && naiveAccept check rest

theorem popDrop_split (maxX : α → ℚ) (x : ℚ) :
    ∀ act : List α, ∃ dropped,
      act = dropped ++ popDrop maxX x act ∧ ∀ q ∈ dropped, maxX q < x := by
  intro act
  induction act with
  | nil => exact ⟨[], rfl, by simp⟩
  | cons q rest ih =>
    by_cases hq : maxX q < x
    · obtain ⟨dropped, hsplit, hlt⟩ := ih
      refine ⟨q :: dropped, ?_, ?_⟩
      · rw [popDrop, if_pos hq]
        simpa using hsplit
      · intro q2 hq2
        rcases List.mem_cons.mp hq2 with rfl | hq2
        · exact hq
        · exact hlt q2 hq2
    · refine ⟨[], ?_, by simp⟩
      rw [popDrop, if_neg hq]
      rfl

theorem mem_pushByMaxX (maxX : α → ℚ) (p : α) :
    ∀ (act : List α) (q : α), q ∈ pushByMaxX maxX p act ↔ q = p ∨ q ∈ act := by
  intro act
  induction act with
  | nil => simp [pushByMaxX]
  | cons r rest ih =>
    intro q
    rw [pushByMaxX]
    split_ifs with hle
    · simp only [List.mem_cons]
    · simp only [List.mem_cons, ih q]
      tauto

theorem sweepGo_spec (minX maxX : α → ℚ) (check : α → α → Bool)
    (hsep : ∀ a b, maxX b < minX a → check a b = true) :
    ∀ l act : List α,
      l.Sorted (fun a b => minX a ≤ minX b) →
      (sweepGo minX maxX check l act = true ↔
        (∀ p ∈ l, ∀ q ∈ act, check p q = true) ∧
        l.Pairwise fun a b => check b a = true) := by
  intro l
  induction l with
  | nil =>
    intro act _
    simp [sweepGo]
  | cons p rest ih =>
    intro act hsorted
    have hrest_sorted : rest.Sorted fun a b => minX a ≤ minX b :=
      hsorted.of_cons
    have hmins : ∀ p2 ∈ rest, minX p ≤ minX p2 :=
      List.rel_of_sorted_cons hsorted
    obtain ⟨dropped, hsplit, hdrop⟩ := popDrop_split maxX (minX p) act
    rw [sweepGo]
    simp only [Bool.and_eq_true]
    rw [ih (pushByMaxX maxX p (popDrop maxX (minX p) act)) hrest_sorted]
    constructor
    · rintro ⟨hall, hrest, hpw⟩
      refine ⟨?_, ?_⟩
      · intro p2 hp2 q hq
        rcases List.mem_cons.mp hp2 with rfl | hp2
        · -- p2 = p
          rw [hsplit] at hq
          rcases List.mem_append.mp hq with hq | hq
          · exact hsep p2 q (lt_of_lt_of_le (hdrop q hq) le_rfl)
          · exact List.all_eq_true.mp hall q hq
        · -- p2 ∈ rest
          rw [hsplit] at hq
          rcases List.mem_append.mp hq with hq | hq
          · exact hsep p2 q (lt_of_lt_of_le (hdrop q hq) (hmins p2 hp2))
          · exact hrest p2 hp2 q ((mem_pushByMaxX maxX p _ q).mpr (Or.inr hq))
      · rw [List.pairwise_cons]
        refine ⟨?_, hpw⟩
        intro p2 hp2
        exact hrest p2 hp2 p ((mem_pushByMaxX maxX p _ p).mpr (Or.inl rfl))
    · rintro ⟨hact, hpw⟩
      have hpw' := List.pairwise_cons.mp hpw
      refine ⟨?_, ?_, hpw'.2⟩
      · rw [List.all_eq_true]
        intro q hq
        exact hact p (List.mem_cons_self _ _) q (by rw [hsplit]; exact List.mem_append_right _ hq)
      · intro p2 hp2 q hq
        rcases (mem_pushByMaxX maxX p _ q).mp hq with rfl | hq
        · exact hpw'.1 p2 hp2
        · exact hact p2 (List.mem_cons_of_mem _ hp2) q
            (by rw [hsplit]; exact List.mem_append_right _ hq)

theorem naiveAccept_iff_pairwise (check : α → α → Bool) :
    ∀ l : List α,
      naiveAccept check l = true ↔ l.Pairwise fun a b => check a b = true := by
  intro l
  induction l with
  | nil => simp [naiveAccept]
  | cons p rest ih =>
    rw [naiveAccept]
    simp only [Bool.and_eq_true, List.all_eq_true, ih, List.pairwise_cons]

/-- C3: for a list of (non-empty, valid) polygons, the sweep-based
`NewMultiPolygon` accepts iff the naive all-pairs constructor accepts, for
any symmetric pair check that automatically passes on pairs whose envelope
x-ranges are disjoint (as the boundary-dimension and interior-disjointness
checks are for disjoint envelopes). -/
theorem sweepAccept_eq_naiveAccept (minX maxX : α → ℚ) (check : α → α → Bool)
    (hsym : ∀ a b, check a b = check b a)
    (hsep : ∀ a b, maxX b < minX a → check a b = true)
    (polys : List α) :
    sweepAccept minX maxX check polys = naiveAccept check polys := by
  haveI htot : IsTotal α fun a b => minX a ≤ minX b := ⟨fun a b => le_total _ _⟩
  haveI htrans : IsTrans α fun a b => minX a ≤ minX b :=
    ⟨fun _ _ _ h1 h2 => le_trans h1 h2⟩
  have hsorted : (polys.insertionSort fun a b => minX a ≤ minX b).Sorted
      fun a b => minX a ≤ minX b := List.sorted_insertionSort _ _
  have hperm : (polys.insertionSort fun a b => minX a ≤ minX b).Perm polys :=
    List.perm_insertionSort _ _
  rw [Bool.eq_iff_iff]
  rw [sweepAccept, sweepGo_spec minX maxX check hsep _ [] hsorted]
  rw [naiveAccept_iff_pairwise]
  have hsymr : Symmetric fun a b : α => check a b = true := by
    intro a b h
    rw [hsym]
    exact h
  rw [← hperm.pairwise_iff @hsymr]
  constructor
  · rintro ⟨_, hpw⟩
    exact hpw.imp fun h => by rw [hsym]; exact h
  · intro hpw
    exact ⟨by simp, hpw.imp fun h => by rw [hsym]; exact h⟩

end Sweep

/-- C3 witness: the equivalence applied to a concrete check and interval
list (the check passes exactly on x-separated pairs, which satisfies both
hypotheses). -/
theorem sweepAccept_eq_naiveAccept_witness :
    sweepAccept (fun p : ℚ × ℚ => p.1) (fun p => p.2)
      (fun a b => decide (b.2 < a.1) || decide (a.2 < b.1))
      [(0, 1), (2, 3), (1, 5)] =
    naiveAccept (fun a b : ℚ × ℚ => decide (b.2 < a.1) || decide (a.2 < b.1))
      [(0, 1), (2, 3), (1, 5)] :=
  sweepAccept_eq_naiveAccept _ _ _
    (fun a b => by
      rw [Bool.eq_iff_iff]
      simp only [Bool.or_eq_true, decide_eq_true_eq]
      tauto)
    (fun a b hlt => by
      simp only [Bool.or_eq_true, decide_eq_true_eq]
      exact Or.inl hlt)
    _

/-! ### Claim C8: R-tree bulk-load partitioning (`rtree/bulk.go`) -/

/-- Models `rtree.BulkItem`. -/
structure BulkItem where
  box : Box
  recordID : ℤ
deriving DecidableEq, Repr

/-- Models `combine` of the rtree package: the smallest box containing both
(source file not available; modelled from the spec: "Parent box = combined
child box"). -/
def combine (b1 b2 : Box) : Box :=
  ⟨min b1.minX b2.minX, min b1.minY b2.minY, max b1.maxX b2.maxX, max b1.maxY b2.maxY⟩

/-- Models `sortBulkItems`: compute the combined box of all items, choose
the longer axis, and sort the items by box centre (min + max) along that
axis.  `sort.Sort` produces some order consistent with the comparator;
insertion sort with the corresponding non-strict comparison models it. -/
def sortBulkItems (items : List BulkItem) : List BulkItem :=
  match items with
  | [] => []
  | it0 :: rest =>
    let box := rest.foldl (fun b it => combine b it.box) it0.box
    if box.maxX - box.minX > box.maxY - box.minY then
      items.insertionSort fun a b => a.box.minX + a.box.maxX ≤ b.box.minX + b.box.maxX
    else
      items.insertionSort fun a b => a.box.minY + a.box.maxY ≤ b.box.minY + b.box.maxY

/-- Models `splitBulkItems2Ways`. -/
def splitBulkItems2Ways (items : List BulkItem) :
    List BulkItem × List BulkItem :=
  let s := sortBulkItems items
  let split := s.length / 2
  (s.take split, s.drop split)

/-- Models `splitBulkItems3Ways`, including the source's arithmetic slip
`remaining := len(items)/3 - 3*cutA` (which is never 1 or 2, so the
adjustment branches are dead): the cuts both end up `len/3`. -/
def splitBulkItems3Ways (items : List BulkItem) :
    List BulkItem × List BulkItem × List BulkItem :=
  let s := sortBulkItems items
  let n : ℤ := s.length
  let cutA : ℤ := n / 3
  let cutB : ℤ := cutA
  let remaining : ℤ := n / 3 - 3 * cutA
  let cutA : ℤ := if remaining = 1 then cutA + 1 else cutA
  let cutA : ℤ := if remaining = 2 then cutA + 1 else cutA
  let cutB : ℤ := if remaining = 2 then cutB + 1 else cutB
  (s.take cutA.toNat, (s.drop cutA.toNat).take cutB.toNat,
    s.drop (cutA + cutB).toNat)

/-- The partition a non-leaf `bulkInsert` step applies to its items: a
2-way split below 6 items, a 3-way split below 8, and otherwise a 4-way
split obtained by two nested 2-way splits. -/
def bulkPartition (items : List BulkItem) : List (List BulkItem) :=
  if items.length < 6 then
    let p := splitBulkItems2Ways items
    [p.1, p.2]
  else if items.length < 8 then
    let p := splitBulkItems3Ways items
    [p.1, p.2.1, p.2.2]
  else
    let halves := splitBulkItems2Ways items
    let q12 := splitBulkItems2Ways halves.1
    let q34 := splitBulkItems2Ways halves.2
    [q12.1, q12.2, q34.1, q34.2]

/-- An R-tree node skeleton (children or leaf items). -/
inductive RNode where
  | leaf (items : List BulkItem)
  | node (children : List RNode)

/-- Models `bulkInsert`: at `levels = 1` the items form a leaf; otherwise
the items are partitioned by `bulkPartition` and each group is inserted one
level lower (`bulkNode`). -/
def bulkInsert (items : List BulkItem) (levels : ℕ) : RNode :=
  if levels ≤ 1 then .leaf items
  else .node ((bulkPartition items).map fun part => bulkInsert part (levels - 1))
termination_by levels
decreasing_by omega

theorem sortBulkItems_perm (items : List BulkItem) :
    (sortBulkItems items).Perm items := by
  match items with
  | [] => exact List.Perm.refl _
  | it0 :: rest =>
    rw [sortBulkItems]
    split_ifs <;> exact List.perm_insertionSort _ _

theorem sortBulkItems_length (items : List BulkItem) :
    (sortBulkItems items).length = items.length :=
  (sortBulkItems_perm items).length_eq

theorem splitBulkItems2Ways_eq (items : List BulkItem) :
    splitBulkItems2Ways items =
      ((sortBulkItems items).take (items.length / 2),
       (sortBulkItems items).drop (items.length / 2)) := by
  simp only [splitBulkItems2Ways, sortBulkItems_length]

theorem splitBulkItems3Ways_eq (items : List BulkItem) :
    splitBulkItems3Ways items =
      ((sortBulkItems items).take (items.length / 3),
       ((sortBulkItems items).drop (items.length / 3)).take (items.length / 3),
       (sortBulkItems items).drop (items.length / 3 + items.length / 3)) := by
  simp only [splitBulkItems3Ways, sortBulkItems_length]
  rw [if_neg (by omega), if_neg (by omega), if_neg (by omega)]
  have hA : ((items.length : ℤ) / 3).toNat = items.length / 3 := by omega
  have hAB : ((items.length : ℤ) / 3 + (items.length : ℤ) / 3).toNat =
      items.length / 3 + items.length / 3 := by omega
  rw [hA, hAB]

/-- C8: at every non-leaf bulk-insert step over `n ≥ 2` items, the items
are partitioned into two groups when `n < 6`, three groups of size at least
2 when `6 ≤ n < 8`, and four groups of `n/4` or `n/4 + 1` items when
`n ≥ 8`; the groups are non-empty and together are exactly the input items
(their concatenation is the input sorted along the chosen axis for the 2-
and 3-way splits, and pairs up into the two sorted halves for the 4-way
split). -/
theorem bulkPartition_spec (items : List BulkItem) (h2 : 2 ≤ items.length) :
    ((bulkPartition items).length =
      if items.length < 6 then 2 else if items.length < 8 then 3 else 4) ∧
    (∀ p ∈ bulkPartition items, p ≠ []) ∧
    (bulkPartition items).flatten.Perm items ∧
    (6 ≤ items.length → items.length < 8 →
      ∀ p ∈ bulkPartition items, 2 ≤ p.length) ∧
    (8 ≤ items.length → ∀ p ∈ bulkPartition items,
      items.length / 4 ≤ p.length ∧ p.length ≤ items.length / 4 + 1) ∧
    (items.length < 8 → (bulkPartition items).flatten = sortBulkItems items) ∧
    (8 ≤ items.length →
      ((bulkPartition items).getD 0 [] ++ (bulkPartition items).getD 1 []).Perm
        ((sortBulkItems items).take (items.length / 2)) ∧
      ((bulkPartition items).getD 2 [] ++ (bulkPartition items).getD 3 []).Perm
        ((sortBulkItems items).drop (items.length / 2))) := by
  have hslen := sortBulkItems_length items
  by_cases hA : items.length < 6
  · have hparts : bulkPartition items =
        [(sortBulkItems items).take (items.length / 2),
         (sortBulkItems items).drop (items.length / 2)] := by
      rw [bulkPartition, if_pos hA, splitBulkItems2Ways_eq]
    have hflat : (bulkPartition items).flatten = sortBulkItems items := by
      rw [hparts]
      simp only [List.flatten, List.append_nil]
      exact List.take_append_drop _ _
    refine ⟨by simp [hparts, hA], ?_, ?_, ?_, ?_, fun _ => hflat, ?_⟩
    · intro p hp
      rw [hparts] at hp
      simp only [List.mem_cons, List.not_mem_nil, or_false] at hp
      rw [← List.length_pos_iff_ne_nil]
      rcases hp with rfl | rfl
      · simp only [List.length_take, hslen]
        omega
      · simp only [List.length_drop, hslen]
        omega
    · rw [hflat]
      exact sortBulkItems_perm items
    · omega
    · omega
    · omega
  · by_cases hB : items.length < 8
    · have hparts : bulkPartition items =
          [(sortBulkItems items).take (items.length / 3),
           ((sortBulkItems items).drop (items.length / 3)).take (items.length / 3),
           (sortBulkItems items).drop (items.length / 3 + items.length / 3)] := by
        rw [bulkPartition, if_neg hA, if_pos hB, splitBulkItems3Ways_eq]
      have hflat : (bulkPartition items).flatten = sortBulkItems items := by
        rw [hparts]
        simp only [List.flatten, List.append_nil]
        rw [← List.drop_drop, List.take_append_drop, List.take_append_drop]
      refine ⟨by rw [hparts]; simp [hA, hB], ?_, ?_, ?_, ?_, fun _ => hflat, ?_⟩
      · intro p hp
        rw [hparts] at hp
        simp only [List.mem_cons, List.not_mem_nil, or_false] at hp
        rw [← List.length_pos_iff_ne_nil]
        rcases hp with rfl | rfl | rfl
        · simp only [List.length_take, hslen]
          omega
        · simp only [List.length_take, List.length_drop, hslen]
          omega
        · simp only [List.length_drop, hslen]
          omega
      · rw [hflat]
        exact sortBulkItems_perm items
      · intro _ _ p hp
        rw [hparts] at hp
        simp only [List.mem_cons, List.not_mem_nil, or_false] at hp
        rcases hp with rfl | rfl | rfl
        · simp only [List.length_take, hslen]
          omega
        · simp only [List.length_take, List.length_drop, hslen]
          omega
        · simp only [List.length_drop, hslen]
          omega
      · omega
      · omega
    · have h8 : 8 ≤ items.length := by omega
      have hlh1 : ((sortBulkItems items).take (items.length / 2)).length =
          items.length / 2 := by
        simp only [List.length_take, hslen]
        omega
      have hlh2 : ((sortBulkItems items).drop (items.length / 2)).length =
          items.length - items.length / 2 := by
        simp only [List.length_drop, hslen]
      have hparts : bulkPartition items =
          [(sortBulkItems ((sortBulkItems items).take (items.length / 2))).take
             (((sortBulkItems items).take (items.length / 2)).length / 2),
           (sortBulkItems ((sortBulkItems items).take (items.length / 2))).drop
             (((sortBulkItems items).take (items.length / 2)).length / 2),
           (sortBulkItems ((sortBulkItems items).drop (items.length / 2))).take
             (((sortBulkItems items).drop (items.length / 2)).length / 2),
           (sortBulkItems ((sortBulkItems items).drop (items.length / 2))).drop
             (((sortBulkItems items).drop (items.length / 2)).length / 2)] := by
        simp only [bulkPartition]
        rw [if_neg hA, if_neg hB]
        simp only [splitBulkItems2Ways_eq]
      have hq12 : ((sortBulkItems ((sortBulkItems items).take (items.length / 2))).take
            (((sortBulkItems items).take (items.length / 2)).length / 2) ++
          (sortBulkItems ((sortBulkItems items).take (items.length / 2))).drop
            (((sortBulkItems items).take (items.length / 2)).length / 2)).Perm
          ((sortBulkItems items).take (items.length / 2)) := by
        rw [List.take_append_drop]
        exact sortBulkItems_perm _
      have hq34 : ((sortBulkItems ((sortBulkItems items).drop (items.length / 2))).take
            (((sortBulkItems items).drop (items.length / 2)).length / 2) ++
          (sortBulkItems ((sortBulkItems items).drop (items.length / 2))).drop
            (((sortBulkItems items).drop (items.length / 2)).length / 2)).Perm
          ((sortBulkItems items).drop (items.length / 2)) := by
        rw [List.take_append_drop]
        exact sortBulkItems_perm _
      have hsh1 := sortBulkItems_length ((sortBulkItems items).take (items.length / 2))
      have hsh2 := sortBulkItems_length ((sortBulkItems items).drop (items.length / 2))
      refine ⟨by rw [hparts]; simp [hA, hB], ?_, ?_, ?_, ?_, ?_, ?_⟩
      · intro p hp
        rw [hparts] at hp
        simp only [List.mem_cons, List.not_mem_nil, or_false] at hp
        rw [← List.length_pos_iff_ne_nil]
        rcases hp with rfl | rfl | rfl | rfl
        · simp only [List.length_take, hsh1, hlh1]
          omega
        · simp only [List.length_drop, hsh1, hlh1]
          omega
        · simp only [List.length_take, hsh2, hlh2]
          omega
        · simp only [List.length_drop, hsh2, hlh2]
          omega
      · rw [hparts]
        simp only [List.flatten, List.append_nil]
        rw [show ∀ a b c d : List BulkItem, a ++ (b ++ (c ++ d)) = (a ++ b) ++ (c ++ d) from
          fun a b c d => by simp [List.append_assoc]]
        refine (hq12.append hq34).trans ?_
        rw [List.take_append_drop]
        exact sortBulkItems_perm items
      · omega
      · intro _ p hp
        rw [hparts] at hp
        simp only [List.mem_cons, List.not_mem_nil, or_false] at hp
        rcases hp with rfl | rfl | rfl | rfl
        · simp only [List.length_take, hsh1, hlh1]
          omega
        · simp only [List.length_drop, hsh1, hlh1]
          omega
        · simp only [List.length_take, hsh2, hlh2]
          omega
        · simp only [List.length_drop, hsh2, hlh2]
          omega
      · omega
      · intro _
        rw [hparts]
        exact ⟨hq12, hq34⟩

/-- C8 witness: the theorem applied to a concrete 9-item list. -/
theorem bulkPartition_spec_witness :
    2 ≤ ((List.range 9).map fun i : ℕ =>
      BulkItem.mk ⟨(i : ℚ), 0, (i : ℚ) + 1, 1⟩ (i : ℤ)).length ∧
    (((bulkPartition ((List.range 9).map fun i : ℕ =>
        BulkItem.mk ⟨(i : ℚ), 0, (i : ℚ) + 1, 1⟩ (i : ℤ))).length =
      if ((List.range 9).map fun i : ℕ =>
        BulkItem.mk ⟨(i : ℚ), 0, (i : ℚ) + 1, 1⟩ (i : ℤ)).length < 6 then 2
      else if ((List.range 9).map fun i : ℕ =>
        BulkItem.mk ⟨(i : ℚ), 0, (i : ℚ) + 1, 1⟩ (i : ℤ)).length < 8 then 3 else 4) ∧
     (∀ p ∈ bulkPartition ((List.range 9).map fun i : ℕ =>
        BulkItem.mk ⟨(i : ℚ), 0, (i : ℚ) + 1, 1⟩ (i : ℤ)), p ≠ []) ∧
     (bulkPartition ((List.range 9).map fun i : ℕ =>
        BulkItem.mk ⟨(i : ℚ), 0, (i : ℚ) + 1, 1⟩ (i : ℤ))).flatten.Perm
       ((List.range 9).map fun i : ℕ => BulkItem.mk ⟨(i : ℚ), 0, (i : ℚ) + 1, 1⟩ (i : ℤ)) ∧
     (6 ≤ ((List.range 9).map fun i : ℕ =>
        BulkItem.mk ⟨(i : ℚ), 0, (i : ℚ) + 1, 1⟩ (i : ℤ)).length →
      ((List.range 9).map fun i : ℕ =>
        BulkItem.mk ⟨(i : ℚ), 0, (i : ℚ) + 1, 1⟩ (i : ℤ)).length < 8 →
      ∀ p ∈ bulkPartition ((List.range 9).map fun i : ℕ =>
        BulkItem.mk ⟨(i : ℚ), 0, (i : ℚ) + 1, 1⟩ (i : ℤ)), 2 ≤ p.length) ∧
     (8 ≤ ((List.range 9).map fun i : ℕ =>
        BulkItem.mk ⟨(i : ℚ), 0, (i : ℚ) + 1, 1⟩ (i : ℤ)).length →
      ∀ p ∈ bulkPartition ((List.range 9).map fun i : ℕ =>
        BulkItem.mk ⟨(i : ℚ), 0, (i : ℚ) + 1, 1⟩ (i : ℤ)),
        ((List.range 9).map fun i : ℕ =>
          BulkItem.mk ⟨(i : ℚ), 0, (i : ℚ) + 1, 1⟩ (i : ℤ)).length / 4 ≤ p.length ∧
        p.length ≤ ((List.range 9).map fun i : ℕ =>
          BulkItem.mk ⟨(i : ℚ), 0, (i : ℚ) + 1, 1⟩ (i : ℤ)).length / 4 + 1) ∧
     (((List.range 9).map fun i : ℕ =>
        BulkItem.mk ⟨(i : ℚ), 0, (i : ℚ) + 1, 1⟩ (i : ℤ)).length < 8 →
      (bulkPartition ((List.range 9).map fun i : ℕ =>
        BulkItem.mk ⟨(i : ℚ), 0, (i : ℚ) + 1, 1⟩ (i : ℤ))).flatten =
        sortBulkItems ((List.range 9).map fun i : ℕ =>
          BulkItem.mk ⟨(i : ℚ), 0, (i : ℚ) + 1, 1⟩ (i : ℤ))) ∧
     (8 ≤ ((List.range 9).map fun i : ℕ =>
        BulkItem.mk ⟨(i : ℚ), 0, (i : ℚ) + 1, 1⟩ (i : ℤ)).length →
      ((bulkPartition ((List.range 9).map fun i : ℕ =>
          BulkItem.mk ⟨(i : ℚ), 0, (i : ℚ) + 1, 1⟩ (i : ℤ))).getD 0 [] ++
        (bulkPartition ((List.range 9).map fun i : ℕ =>
          BulkItem.mk ⟨(i : ℚ), 0, (i : ℚ) + 1, 1⟩ (i : ℤ))).getD 1 []).Perm
        ((sortBulkItems ((List.range 9).map fun i : ℕ =>
          BulkItem.mk ⟨(i : ℚ), 0, (i : ℚ) + 1, 1⟩ (i : ℤ))).take
          (((List.range 9).map fun i : ℕ =>
            BulkItem.mk ⟨(i : ℚ), 0, (i : ℚ) + 1, 1⟩ (i : ℤ)).length / 2)) ∧
      ((bulkPartition ((List.range 9).map fun i : ℕ =>
          BulkItem.mk ⟨(i : ℚ), 0, (i : ℚ) + 1, 1⟩ (i : ℤ))).getD 2 [] ++
        (bulkPartition ((List.range 9).map fun i : ℕ =>
          BulkItem.mk ⟨(i : ℚ), 0, (i : ℚ) + 1, 1⟩ (i : ℤ))).getD 3 []).Perm
        ((sortBulkItems ((List.range 9).map fun i : ℕ =>
          BulkItem.mk ⟨(i : ℚ), 0, (i : ℚ) + 1, 1⟩ (i : ℤ))).drop
          (((List.range 9).map fun i : ℕ =>
            BulkItem.mk ⟨(i : ℚ), 0, (i : ℚ) + 1, 1⟩ (i : ℤ)).length / 2)))) :=
  ⟨by simp, bulkPartition_spec _ (by simp)⟩

/-! ### Claims C5 and C9: NaN / infinity handling

These claims are about IEEE special values, so coordinates are modelled by
`Fl`: an exact numeric value, NaN, or a signed infinity, with Go's
comparison semantics (NaN is unequal to everything). -/

/-- A float64 value for the NaN/Inf claims. -/
inductive Fl where
  | num (q : ℚ)
  | nan
  | inf
  | ninf
deriving DecidableEq, Repr

def Fl.isNaN : Fl → Bool
  | .nan => true
  | _ => false

def Fl.isInf : Fl → Bool
  | .inf => true
  | .ninf => true
  | _ => false

/-- Go `==` on float64: NaN compares unequal to everything, itself
included. -/
def flGoEq : Fl → Fl → Bool
  | .nan, _ => false
  | _, .nan => false
  | a, b => decide (a = b)

/-- A coordinate pair of float values. -/
structure XYF where
  x : Fl
  y : Fl
deriving DecidableEq, Repr

/-- Go `==` on the XY struct (fieldwise float comparison). -/
def xyfGoEq (a b : XYF) : Bool := flGoEq a.x b.x && flGoEq a.y b.y

/-- Models `hasAtLeast2DistinctPointsInSeq` (geom module): some later point
compares Go-unequal to the first. -/
def hasAtLeast2DistinctPointsInSeq (seq : List XYF) : Bool :=
  match seq with
  | [] => false
  | first :: rest => rest.any fun c => !(xyfGoEq c first)

/-- Modelled from the spec: `Sequence.validate` — "all coordinates finite"
(source file not available). -/
def seqValidate (seq : List XYF) : Except String Unit :=
  if seq.any fun c => c.x.isNaN || c.x.isInf || c.y.isNaN || c.y.isInf then
    .error "coordinate is NaN or inf"
  else .ok ()

/-- The construction options (models `ConstructorOption`). -/
structure CtorOpts where
  skipValidations : Bool
  omitInvalid : Bool
deriving DecidableEq, Repr

/-- Models `NewLineString` (geom module): skip on `skipValidations` or the
empty sequence, then the two-distinct-points check, then coordinate
validation. -/
def NewLineString (seq : List XYF) (opts : CtorOpts) : Except String (List XYF) :=
  if opts.skipValidations || seq.length == 0 then .ok seq
  else if !hasAtLeast2DistinctPointsInSeq seq then
    if opts.omitInvalid then .ok [] else
      .error "non-empty linestring contains only one distinct XY value"
  else
    match seqValidate seq with
    | .error e => if opts.omitInvalid then .ok [] else .error e
    | .ok _ => .ok seq

/-- The old module's Point value. -/
structure PointF where
  coords : XYF
deriving DecidableEq, Repr

/-- Models `NewPointC` (old module): the options are ignored (`_
...ConstructorOption`) and the Point is constructed with no validation of
any kind. -/
def NewPointC (c : XYF) (_opts : CtorOpts) : PointF := ⟨c⟩

/-- Models `NewMultiPoint` (old module): no validation. -/
def NewMultiPoint (pts : List PointF) (_opts : CtorOpts) : List PointF := pts

/-- C5 (counterexample): constructing a Point from NaN coordinates with
default options succeeds — `NewPointC` returns the Point holding the NaN
coordinates (its signature cannot even return a ValidationError), refuting
"every geometry constructor ... yields a ValidationError rather than a
successfully constructed geometry". -/
theorem newPointC_nan_succeeds :
    NewPointC ⟨Fl.nan, Fl.nan⟩ ⟨false, false⟩ = ⟨⟨Fl.nan, Fl.nan⟩⟩ ∧
    (NewPointC ⟨Fl.nan, Fl.nan⟩ ⟨false, false⟩).coords.x.isNaN = true ∧
    NewMultiPoint [NewPointC ⟨Fl.nan, Fl.nan⟩ ⟨false, false⟩] ⟨false, false⟩ =
      [⟨⟨Fl.nan, Fl.nan⟩⟩] :=
  ⟨rfl, rfl, rfl⟩

/-- C5 (amended): with validations not skipped and `omitInvalid` off, the
LineString constructor rejects any non-empty sequence containing a NaN
coordinate; the Point and MultiPoint constructors of the old module perform
no validation and construct geometries containing NaN. -/
theorem newLineString_nan_error (seq : List XYF) (hne : seq ≠ [])
    (hnan : (seq.any fun c => c.x.isNaN || c.y.isNaN) = true) :
    ∃ e, NewLineString seq ⟨false, false⟩ = .error e := by
  have hlen : (seq.length == 0) = false := by
    simp only [beq_eq_false_iff_ne, ne_eq, List.length_eq_zero]
    exact hne
  rw [NewLineString]
  rw [if_neg (by simp [hlen])]
  by_cases hdist : hasAtLeast2DistinctPointsInSeq seq = true
  · rw [if_neg (by simp [hdist])]
    have hval : seqValidate seq = .error "coordinate is NaN or inf" := by
      rw [seqValidate, if_pos]
      obtain ⟨c, hc, hbad⟩ := List.any_eq_true.mp hnan
      refine List.any_eq_true.mpr ⟨c, hc, ?_⟩
      rcases Bool.or_eq_true_iff.mp hbad with h | h <;> simp [h]
    rw [hval]
    exact ⟨_, rfl⟩
  · rw [if_pos (by simp [Bool.not_eq_true] at hdist ⊢; exact hdist)]
    exact ⟨_, rfl⟩

/-- C5 witness: the amended theorem applied to a concrete sequence with a
NaN Y coordinate. -/
theorem newLineString_nan_error_witness :
    (([⟨Fl.num 0, Fl.num 0⟩, ⟨Fl.num 1, Fl.nan⟩] : List XYF) ≠ []) ∧
    (([⟨Fl.num 0, Fl.num 0⟩, ⟨Fl.num 1, Fl.nan⟩] : List XYF).any fun c =>
      c.x.isNaN || c.y.isNaN) = true ∧
    ∃ e, NewLineString [⟨Fl.num 0, Fl.num 0⟩, ⟨Fl.num 1, Fl.nan⟩] ⟨false, false⟩ =
      .error e :=
  ⟨by simp, by simp [Fl.isNaN], newLineString_nan_error _ (by simp) (by simp [Fl.isNaN])⟩

/-- The decoded GeoJSON document (type tag plus nested coordinate arrays)
that `UnmarshalGeoJSON` dispatches on.  The JSON text layer itself is not
modelled: a NaN or infinity "coordinate number" exists at this decoded
level. -/
inductive GeoJSONInput where
  | point (coords : List Fl)
  | lineString (coords : List (List Fl))
  | multiPoint (coords : List (List Fl))
  | polygon (coords : List (List (List Fl)))
  | multiLineString (coords : List (List (List Fl)))
  | multiPolygon (coords : List (List (List (List Fl))))
  | geometryCollection (geoms : List GeoJSONInput)

/-- An exact coordinate pair produced by a successful conversion. -/
abbrev CoordF := ℚ × ℚ

/-- The geometry-layer constructors `UnmarshalGeoJSON` calls after
coordinate conversion, abstracted as parameters (several of their source
files are not available; the claim does not depend on them). -/
structure GeomCtors (G : Type) where
  emptyPoint : G
  pointC : CoordF → G
  emptyLineString : G
  lineC : CoordF → CoordF → Except String G
  lineStringC : List CoordF → Except String G
  multiPointC : List CoordF → G
  emptyPolygon : G
  polygonC : List (List CoordF) → Except String G
  multiLineStringC : List (List CoordF) → Except String G
  multiPolygonC : List (List (List CoordF)) → Except String G
  geometryCollection : List G → G

/-- Models `oneDimFloat64sToCoordinates`: dimension check, then NaN/Inf
rejection, then exact conversion (the `NewScalarS` parse of a formatted
finite float cannot fail; that fallback is unreachable). -/
def oneDimFloat64sToCoordinates (fs : List Fl) : Except String CoordF :=
  if fs.length < 2 || fs.length > 4 then
    .error "coordinates have incorrect dimension"
  else if fs.any fun f => f.isNaN || f.isInf then
    .error "coordinate is NaN or inf"
  else
    match fs with
    | .num x :: .num y :: _ => .ok (x, y)
    | _ => .error "NewScalarS"

/-- Models `twoDimFloat64sToCoordinates`. -/
def twoDimFloat64sToCoordinates : List (List Fl) → Except String (List CoordF)
  | [] => .ok []
  | inner :: rest =>
    match oneDimFloat64sToCoordinates inner with
    | .error e => .error e
    | .ok c =>
      match twoDimFloat64sToCoordinates rest with
      | .error e => .error e
      | .ok cs => .ok (c :: cs)

/-- Models `threeDimFloat64sToCoordinates`. -/
def threeDimFloat64sToCoordinates : List (List (List Fl)) → Except String (List (List CoordF))
  | [] => .ok []
  | inner :: rest =>
    match twoDimFloat64sToCoordinates inner with
    | .error e => .error e
    | .ok c =>
      match threeDimFloat64sToCoordinates rest with
      | .error e => .error e
      | .ok cs => .ok (c :: cs)

/-- Models `fourDimFloat64sToCoordinates`. -/
def fourDimFloat64sToCoordinates : List (List (List (List Fl))) → Except String (List (List (List CoordF)))
  | [] => .ok []
  | inner :: rest =>
    match threeDimFloat64sToCoordinates inner with
    | .error e => .error e
    | .ok c =>
      match fourDimFloat64sToCoordinates rest with
      | .error e => .error e
      | .ok cs => .ok (c :: cs)

mutual

/-- Models `UnmarshalGeoJSON` on the decoded document: each variant
converts its coordinate arrays (rejecting NaN/Inf) and calls the geometry
constructor; a `GeometryCollection` decodes its children, aborting on the
first failure. -/
def unmarshalGeoJSON {G : Type} (ctors : GeomCtors G) :
    GeoJSONInput → Except String G
  | .point coords =>
    if coords.length == 0 then .ok ctors.emptyPoint
    else
      match oneDimFloat64sToCoordinates coords with
      | .error e => .error e
      | .ok c => .ok (ctors.pointC c)
  | .lineString coords =>
    match twoDimFloat64sToCoordinates coords with
    | .error e => .error e
    | .ok cs =>
      match cs with
      | [] => .ok ctors.emptyLineString
      | [c0, c1] => ctors.lineC c0 c1
      | _ => ctors.lineStringC cs
  | .multiPoint coords =>
    match twoDimFloat64sToCoordinates coords with
    | .error e => .error e
    | .ok cs => .ok (ctors.multiPointC cs)
  | .polygon coords =>
    match threeDimFloat64sToCoordinates coords with
    | .error e => .error e
    | .ok cs =>
      match cs with
      | [] => .ok ctors.emptyPolygon
      | _ => ctors.polygonC cs
  | .multiLineString coords =>
    match threeDimFloat64sToCoordinates coords with
    | .error e => .error e
    | .ok cs => ctors.multiLineStringC cs
  | .multiPolygon coords =>
    match fourDimFloat64sToCoordinates coords with
    | .error e => .error e
    | .ok cs => ctors.multiPolygonC cs
  | .geometryCollection geoms =>
    match unmarshalGeoJSONList ctors geoms with
    | .error e => .error e
    | .ok gs => .ok (ctors.geometryCollection gs)

/-- Decoding of the `geometries` array of a collection. -/
def unmarshalGeoJSONList {G : Type} (ctors : GeomCtors G) :
    List GeoJSONInput → Except String (List G)
  | [] => .ok []
  | g :: rest =>
    match unmarshalGeoJSON ctors g with
    | .error e => .error e
    | .ok v =>
      match unmarshalGeoJSONList ctors rest with
      | .error e => .error e
      | .ok vs => .ok (v :: vs)

end

/-- Whether a float list contains a NaN or infinity. -/
def flsBad (fs : List Fl) : Bool := fs.any fun f => f.isNaN || f.isInf

mutual

/-- Whether any coordinate number of the document is NaN or infinite. -/
def hasBadCoord : GeoJSONInput → Bool
  | .point cs => flsBad cs
  | .lineString cs => cs.any flsBad
  | .multiPoint cs => cs.any flsBad
  | .polygon cs => cs.any fun c => c.any flsBad
  | .multiLineString cs => cs.any fun c => c.any flsBad
  | .multiPolygon cs => cs.any fun c => c.any fun d => d.any flsBad
  | .geometryCollection gs => hasBadCoordList gs

def hasBadCoordList : List GeoJSONInput → Bool
  | [] => false
  | g :: rest => hasBadCoord g || hasBadCoordList rest

end

/-- A list with a NaN or infinite entry never converts: either the
dimension check or the NaN/Inf check fires. -/
lemma oneDim_bad (fs : List Fl) (h : flsBad fs = true) :
    ∃ e, oneDimFloat64sToCoordinates fs = .error e := by
  unfold oneDimFloat64sToCoordinates
  split_ifs with h1 h2
  · exact ⟨_, rfl⟩
  · exact ⟨_, rfl⟩
  · simp only [flsBad] at h
    exact absurd h h2

lemma twoDim_bad (cs : List (List Fl)) (h : cs.any flsBad = true) :
    ∃ e, twoDimFloat64sToCoordinates cs = .error e := by
  induction cs with
  | nil => simp at h
  | cons c rest ih =>
    simp only [List.any_cons, Bool.or_eq_true] at h
    cases hc : oneDimFloat64sToCoordinates c with
    | error e =>
      exact ⟨e, by simp only [twoDimFloat64sToCoordinates, hc]⟩
    | ok v =>
      have hcb : flsBad c = false := by
        by_contra hb
        obtain ⟨e, he⟩ := oneDim_bad c (by revert hb; cases flsBad c <;> simp)
        rw [hc] at he
        exact Except.noConfusion he
      have hrest : rest.any flsBad = true := by
        rcases h with h | h
        · rw [hcb] at h; exact Bool.noConfusion h
        · exact h
      obtain ⟨e, he⟩ := ih hrest
      exact ⟨e, by simp only [twoDimFloat64sToCoordinates, hc, he]⟩

lemma threeDim_bad (cs : List (List (List Fl)))
    (h : (cs.any fun c => c.any flsBad) = true) :
    ∃ e, threeDimFloat64sToCoordinates cs = .error e := by
  induction cs with
  | nil => simp at h
  | cons c rest ih =>
    simp only [List.any_cons, Bool.or_eq_true] at h
    cases hc : twoDimFloat64sToCoordinates c with
    | error e =>
      exact ⟨e, by simp only [threeDimFloat64sToCoordinates, hc]⟩
    | ok v =>
      have hcb : c.any flsBad = false := by
        by_contra hb
        obtain ⟨e, he⟩ := twoDim_bad c (by revert hb; cases c.any flsBad <;> simp)
        rw [hc] at he
        exact Except.noConfusion he
      have hrest : (rest.any fun c => c.any flsBad) = true := by
        rcases h with h | h
        · rw [hcb] at h; exact Bool.noConfusion h
        · exact h
      obtain ⟨e, he⟩ := ih hrest
      exact ⟨e, by simp only [threeDimFloat64sToCoordinates, hc, he]⟩

lemma fourDim_bad (cs : List (List (List (List Fl))))
    (h : (cs.any fun c => c.any fun d => d.any flsBad) = true) :
    ∃ e, fourDimFloat64sToCoordinates cs = .error e := by
  induction cs with
  | nil => simp at h
  | cons c rest ih =>
    simp only [List.any_cons, Bool.or_eq_true] at h
    cases hc : threeDimFloat64sToCoordinates c with
    | error e =>
      exact ⟨e, by simp only [fourDimFloat64sToCoordinates, hc]⟩
    | ok v =>
      have hcb : (c.any fun d => d.any flsBad) = false := by
        by_contra hb
        obtain ⟨e, he⟩ := threeDim_bad c
          (by revert hb; cases hcd : (c.any fun d => d.any flsBad) <;> simp)
        rw [hc] at he
        exact Except.noConfusion he
      have hrest : (rest.any fun c => c.any fun d => d.any flsBad) = true := by
        rcases h with h | h
        · rw [hcb] at h; exact Bool.noConfusion h
        · exact h
      obtain ⟨e, he⟩ := ih hrest
      exact ⟨e, by simp only [fourDimFloat64sToCoordinates, hc, he]⟩

/-- Bad coordinates force an error, simultaneously for a document and for
the children list of a collection, by induction on a size bound. -/
lemma unmarshalGeoJSON_bad_aux {G : Type} (ctors : GeomCtors G) :
    ∀ n : ℕ,
      (∀ input : GeoJSONInput, sizeOf input ≤ n → hasBadCoord input = true →
        ∃ e, unmarshalGeoJSON ctors input = .error e) ∧
      (∀ gs : List GeoJSONInput, sizeOf gs ≤ n → hasBadCoordList gs = true →
        ∃ e, unmarshalGeoJSONList ctors gs = .error e) := by
  intro n
  induction n with
  | zero =>
    constructor
    · intro input hsz _
      cases input <;> simp at hsz
    · intro gs hsz hbad
      cases gs with
      | nil => simp [hasBadCoordList] at hbad
      | cons g rest => simp at hsz
  | succ n ih =>
    constructor
    · intro input hsz hbad
      cases input with
      | point cs =>
        simp only [hasBadCoord] at hbad
        obtain ⟨e, he⟩ := oneDim_bad cs hbad
        refine ⟨e, ?_⟩
        have hne : cs.length ≠ 0 := by
          intro h0
          rw [List.length_eq_zero.mp h0] at hbad
          simp [flsBad] at hbad
        simp only [unmarshalGeoJSON, he]
        rw [if_neg (by simpa using hne)]
      | lineString cs =>
        simp only [hasBadCoord] at hbad
        obtain ⟨e, he⟩ := twoDim_bad cs hbad
        exact ⟨e, by simp only [unmarshalGeoJSON, he]⟩
      | multiPoint cs =>
        simp only [hasBadCoord] at hbad
        obtain ⟨e, he⟩ := twoDim_bad cs hbad
        exact ⟨e, by simp only [unmarshalGeoJSON, he]⟩
      | polygon cs =>
        simp only [hasBadCoord] at hbad
        obtain ⟨e, he⟩ := threeDim_bad cs hbad
        exact ⟨e, by simp only [unmarshalGeoJSON, he]⟩
      | multiLineString cs =>
        simp only [hasBadCoord] at hbad
        obtain ⟨e, he⟩ := threeDim_bad cs hbad
        exact ⟨e, by simp only [unmarshalGeoJSON, he]⟩
      | multiPolygon cs =>
        simp only [hasBadCoord] at hbad
        obtain ⟨e, he⟩ := fourDim_bad cs hbad
        exact ⟨e, by simp only [unmarshalGeoJSON, he]⟩
      | geometryCollection gs =>
        simp only [hasBadCoord] at hbad
        have hsz2 : sizeOf gs ≤ n := by simp at hsz; omega
        obtain ⟨e, he⟩ := (ih).2 gs hsz2 hbad
        exact ⟨e, by simp only [unmarshalGeoJSON, he]⟩
    · intro gs hsz hbad
      cases gs with
      | nil => simp [hasBadCoordList] at hbad
      | cons g rest =>
        simp only [hasBadCoordList, Bool.or_eq_true] at hbad
        have hszg : sizeOf g ≤ n := by simp at hsz; omega
        have hszr : sizeOf rest ≤ n := by simp at hsz; omega
        cases hg : unmarshalGeoJSON ctors g with
        | error e =>
          exact ⟨e, by simp only [unmarshalGeoJSONList, hg]⟩
        | ok v =>
          have hgeom : hasBadCoord g = false := by
            by_contra hb
            obtain ⟨e, he⟩ := (ih).1 g hszg
              (by revert hb; cases hasBadCoord g <;> simp)
            rw [hg] at he
            exact Except.noConfusion he
          have hrest : hasBadCoordList rest = true := by
            rcases hbad with h | h
            · rw [hgeom] at h; exact Bool.noConfusion h
            · exact h
          obtain ⟨e, he⟩ := (ih).2 rest hszr hrest
          exact ⟨e, by simp only [unmarshalGeoJSONList, hg, he]⟩

/-- C9: for every GeoJSON input in which any coordinate number is NaN or
positive/negative infinity, UnmarshalGeoJSON returns an error and no
geometry is produced. -/
theorem unmarshalGeoJSON_nan_inf_error {G : Type} (ctors : GeomCtors G)
    (input : GeoJSONInput) (hbad : hasBadCoord input = true) :
    ∃ e, unmarshalGeoJSON ctors input = .error e :=
  (unmarshalGeoJSON_bad_aux ctors (sizeOf input)).1 input le_rfl hbad

/-- A trivial constructor family, enough to evaluate the decoder. -/
def unitGeomCtors : GeomCtors Unit where
  emptyPoint := ()
  pointC := fun _ => ()
  emptyLineString := ()
  lineC := fun _ _ => .ok ()
  lineStringC := fun _ => .ok ()
  multiPointC := fun _ => ()
  emptyPolygon := ()
  polygonC := fun _ => .ok ()
  multiLineStringC := fun _ => .ok ()
  multiPolygonC := fun _ => .ok ()
  geometryCollection := fun _ => ()

/-- A `Point` document whose first coordinate is NaN is rejected. -/
theorem unmarshalGeoJSON_nan_inf_error_witness :
    hasBadCoord (GeoJSONInput.point [Fl.nan, Fl.num 0]) = true ∧
    ∃ e, unmarshalGeoJSON unitGeomCtors
      (GeoJSONInput.point [Fl.nan, Fl.num 0]) = .error e :=
  ⟨by simp [hasBadCoord, flsBad, Fl.isNaN],
   unmarshalGeoJSON_nan_inf_error unitGeomCtors _
     (by simp [hasBadCoord, flsBad, Fl.isNaN])⟩

end SimpleFeatures
